import Mathlib

/-!
# Vietnamese administrative data service: model and properties

A shallow embedding of the Go packages `models` (models.go) and `services`
(data_loader.go), with the part of `handlers` (handlers.go) that the stated
properties need.

Conventions of the embedding.

* A Go `string` is a Lean `String`: a sequence of Unicode code points. Every
  string the service stores comes out of `encoding/json`, which yields valid
  UTF-8; on valid UTF-8 the byte-wise `<` of Go is the code-point-wise `<` of
  Lean, and a byte-wise substring is a code-point-wise infix.
* A Go `map[string]T` is the list of its entries `(key, value)` in the order a
  `range` loop visits them. Go leaves that order unspecified, so a statement
  about a map is made for every permutation of the entry list; the keys of a map
  are pairwise distinct (`NodupKeys`).
* A Go `int` is an `Int` in `[-2^63, 2^63)`; the one addition of the package
  that can leave that range, `offset + limit`, is wrapped by `wrapInt`.
* A run-time panic is the result `none`.
* The standard-library routines `strings.ToLower` and `sort.Slice` are taken as
  the fields of a `StdLib`; `insertionSortLessFunc` is the routine `sort.Slice`
  runs on slices of at most twelve elements. The routines of `os`, `filepath`,
  `encoding/json` and `time` that `LoadData` calls are the fields of a `Host`,
  and `strings.TrimSpace` and `strconv.Atoi` the fields of a `Web`.
* Go `len(s)` of a string is its number of bytes in UTF-8, `byteLen`.
* A `float64` is the rational it stands for: conversion and division round to
  the nearest value with a 53-bit significand, ties to even (`float64OfNat`,
  `quoMantissa`, `quoExponent`); the values met are far from overflow and
  underflow.
-/

namespace VietnamAdmin

/-! ## models.go: entities -/

/-- Province, a Vietnamese province or city (models.go, `type Province`). -/
structure Province where
  Code : String
  Name : String
  Slug : String
  /-- Field `Type` of the source; `Type` is reserved in Lean. -/
  Type_ : String
  NameWithType : String
deriving DecidableEq, Repr

/-- Ward, a Vietnamese ward, commune or town (models.go, `type Ward`). -/
structure Ward where
  Code : String
  Name : String
  Slug : String
  /-- Field `Type` of the source; `Type` is reserved in Lean. -/
  Type_ : String
  NameWithType : String
  Path : String
  PathWithType : String
  ParentCode : String
deriving DecidableEq, Repr

/-- ProvinceData is `map[string]Province`: the entries in `range` order. -/
abbrev ProvinceData := List (String × Province)

/-- WardData is `map[string]Ward`: the entries in `range` order. -/
abbrev WardData := List (String × Ward)

/-- The keys of a Go map are pairwise distinct. -/
def NodupKeys {β : Type} (m : List (String × β)) : Prop := (m.map Prod.fst).Nodup

/-- Map index expression `v, ok := m[k]`: `some v` when `k` is a key. -/
def mapGet {β : Type} : List (String × β) → String → Option β
  | [], _ => none
  | (k, v) :: rest, key => if k = key then some v else mapGet rest key

/-! ## Standard library -/

/-- The Go standard-library routines the package calls and does not define. -/
structure StdLib where
  /-- Library routine `strings.ToLower`. -/
  ToLower : String → String
  /-- Library routine `sort.Slice(x, less)`, as a function of the slice contents. -/
  sortSlice : (α : Type) → (α → α → Bool) → List α → List α

/-- One backward pass of `insertionSortLessFunc`: the element `x` sits right
after the prefix whose reverse is `rev` and is swapped towards the front while
`less x y` holds for its left neighbour `y`. The result is again reversed. -/
def insertBack {α : Type} (less : α → α → Bool) (x : α) : List α → List α
  | [] => [x]
  | y :: rev => if less x y then y :: insertBack less x rev else x :: y :: rev

/-- Go `insertionSortLessFunc(data, 0, n)`:
`for i := 1; i < n; i++ { for j := i; j > 0 && less(j, j-1); j-- { swap(j, j-1) } }`. -/
def insertionSortLessFunc (α : Type) (less : α → α → Bool) (l : List α) : List α :=
  (l.foldl (fun rev x => insertBack less x rev) []).reverse

/-- Go `a < b` on strings: lexicographic comparison, byte by byte, which on valid
UTF-8 is code point by code point. -/
def strLess (a b : String) : Bool := decide (a.data < b.data)

/-- What `sort.Slice` documents: the result is a rearrangement of the input in
which no element is `less` than an element before it, here for the comparisons
of a string key that the package passes. -/
def StdLib.SortContract (L : StdLib) : Prop :=
  ∀ (α : Type) (key : α → String) (l : List α),
    (L.sortSlice α (fun a b => strLess (key a) (key b)) l).Perm l ∧
    (L.sortSlice α (fun a b => strLess (key a) (key b)) l).Pairwise
      (fun a b => strLess (key b) (key a) = false)

/-- ASCII lower-casing of one code point, the fast path of `strings.ToLower`. -/
def asciiLowerRune (c : Char) : Char :=
  if 'A' ≤ c ∧ c ≤ 'Z' then Char.ofNat (c.toNat + 32) else c

/-- Library routine `strings.ToLower` on strings whose only upper-case letters are
ASCII: those are mapped to lower case and every other code point is kept. -/
def asciiToLower (s : String) : String := String.mk (s.data.map asciiLowerRune)

/-- A `StdLib` for concrete evaluation: correct for `sort.Slice` on at most
twelve elements and for `strings.ToLower` on strings whose upper-case letters
are all ASCII. -/
def smallLib : StdLib where
  ToLower := asciiToLower
  sortSlice := insertionSortLessFunc

/-- Library routine `strings.Contains(s, substr)`: `substr` occurs in `s` at some
position. -/
def Contains (s substr : String) : Bool :=
  s.data.tails.any (fun t => substr.data.isPrefixOf t)

/-! ## models.go: search and filter methods -/

/-- Method `Province.MatchesQuery` (models.go). -/
def Province.MatchesQuery (L : StdLib) (p : Province) (query : String) : Bool :=
  let query := L.ToLower query
  Contains (L.ToLower p.Name) query ||
    Contains (L.ToLower p.Slug) query ||
    Contains (L.ToLower p.NameWithType) query

/-- Method `Ward.MatchesQuery` (models.go). -/
def Ward.MatchesQuery (L : StdLib) (w : Ward) (query : String) : Bool :=
  let query := L.ToLower query
  Contains (L.ToLower w.Name) query ||
    Contains (L.ToLower w.Slug) query ||
    Contains (L.ToLower w.NameWithType) query ||
    Contains (L.ToLower w.Path) query ||
    Contains (L.ToLower w.PathWithType) query

/-- Method `Province.MatchesType` (models.go). -/
def Province.MatchesType (p : Province) (typeFilter : String) : Bool :=
  typeFilter == "" || p.Type_ == typeFilter

/-- Method `Ward.MatchesType` (models.go). -/
def Ward.MatchesType (w : Ward) (typeFilter : String) : Bool :=
  typeFilter == "" || w.Type_ == typeFilter

/-- Method `Ward.MatchesParentCode` (models.go). -/
def Ward.MatchesParentCode (w : Ward) (parentCode : String) : Bool :=
  parentCode == "" || w.ParentCode == parentCode

/-- Method `ProvinceData.ToSlice` (models.go). -/
def ProvinceData.ToSlice (pd : ProvinceData) : List Province :=
  pd.foldl (fun provinces e => provinces ++ [e.2]) []

/-- Method `WardData.ToSlice` (models.go). -/
def WardData.ToSlice (wd : WardData) : List Ward :=
  wd.foldl (fun wards e => wards ++ [e.2]) []

/-- Method `ProvinceData.ToSliceWithFilters` (models.go): the `range` loop appends
each province that passes the tests. -/
def ProvinceData.ToSliceWithFilters (L : StdLib) (pd : ProvinceData)
    (search typeFilter : String) : List Province :=
  pd.foldl (fun provinces e =>
    if (search == "" || e.2.MatchesQuery L search) && e.2.MatchesType typeFilter
    then provinces ++ [e.2] else provinces) []

/-- Method `WardData.ToSliceWithFilters` (models.go). -/
def WardData.ToSliceWithFilters (L : StdLib) (wd : WardData)
    (search typeFilter parentCode : String) : List Ward :=
  wd.foldl (fun wards e =>
    if (search == "" || e.2.MatchesQuery L search) && e.2.MatchesType typeFilter &&
        e.2.MatchesParentCode parentCode
    then wards ++ [e.2] else wards) []

/-! ## models.go: pagination -/

/-- Largest Go `int` plus one, on a 64-bit platform. -/
def intLimit : Int := 2 ^ 63

/-- Go `int` arithmetic: the result of an addition, reduced into `[-2^63, 2^63)`. -/
def wrapInt (x : Int) : Int := (x + intLimit) % (2 * intLimit) - intLimit

/-- A value of Go type `int`. -/
def IsInt (x : Int) : Prop := -intLimit ≤ x ∧ x < intLimit

/-- Slice expression `s[lo:hi]`: a run-time panic (`none`) unless
`0 ≤ lo ≤ hi ≤ len(s)`. Go checks `hi` against the capacity; `PaginateSlice`
passes only a `hi` that is at most `len(s)` or, after an overflow, negative, and
for those the two checks agree. -/
def sliceExpr {α : Type} (s : List α) (lo hi : Int) : Option (List α) :=
  if 0 ≤ lo ∧ lo ≤ hi ∧ hi ≤ (s.length : Int) then
    some ((s.drop lo.toNat).take (hi.toNat - lo.toNat))
  else none

/-- The body shared by the `[]Province` and `[]Ward` cases of `PaginateSlice`. -/
def paginateCase {α : Type} (s : List α) (limit offset : Int) : Option (List α × Int) :=
  let total : Int := s.length
  if offset ≥ total then some ([], total)
  else
    let end0 := wrapInt (offset + limit)
    let end1 := if end0 > total then total else end0
    (sliceExpr s offset end1).map (fun items => (items, total))

/-- The dynamic type of the `interface{}` argument of `PaginateSlice`. -/
inductive AnySlice where
  | provinces (s : List Province)
  | wards (s : List Ward)
  | other
deriving DecidableEq, Repr

/-- Function `PaginateSlice` (models.go). -/
def PaginateSlice (slice : AnySlice) (limit offset : Int) : Option (AnySlice × Int) :=
  match slice with
  | .provinces s => (paginateCase s limit offset).map (fun r => (.provinces r.1, r.2))
  | .wards s => (paginateCase s limit offset).map (fun r => (.wards r.1, r.2))
  | .other => some (.other, 0)

/-! ## data_loader.go: the store -/

/-- The contents of a file, `[]byte`. -/
abbrev Bytes := List Nat

/-- What `LoadData` takes from outside the package: `filepath.Join`,
`os.ReadFile`, `json.Unmarshal` at the two map types, and `time.Now`. A Go
`error` is `none` for `nil` and `some msg` otherwise. -/
structure Host where
  /-- Library routine `filepath.Join`. -/
  Join : String → String → String
  /-- Library routine `os.ReadFile`. -/
  ReadFile : String → Bytes × Option String
  /-- Library routine `json.Unmarshal(data, &provinces)` with `provinces` a nil `ProvinceData`. -/
  jsonUnmarshalProvinces : Bytes → ProvinceData × Option String
  /-- Library routine `json.Unmarshal(data, &wards)` with `wards` a nil `WardData`. -/
  jsonUnmarshalWards : Bytes → WardData × Option String
  /-- The value of `time.Now()` stored as the load time. -/
  Now : Nat

/-- Function `UnmarshalProvinceData` (models.go). -/
def UnmarshalProvinceData (H : Host) (data : Bytes) : ProvinceData × Option String :=
  H.jsonUnmarshalProvinces data

/-- Function `UnmarshalWardData` (models.go). -/
def UnmarshalWardData (H : Host) (data : Bytes) : WardData × Option String :=
  H.jsonUnmarshalWards data

/-- DataService (data_loader.go), without its mutex. -/
structure DataService where
  provinces : ProvinceData
  wards : WardData
  loadTime : Nat
  dataPath : String
deriving DecidableEq, Repr

/-- Function `NewDataService` (data_loader.go): nil maps and the zero time. -/
def NewDataService (dataPath : String) : DataService :=
  { provinces := [], wards := [], loadTime := 0, dataPath := dataPath }

/-- Method `DataService.LoadData` (data_loader.go): the error returned and the
store afterwards. -/
def DataService.LoadData (H : Host) (ds : DataService) : Option String × DataService :=
  let provinceFile := H.Join ds.dataPath "province.json"
  match H.ReadFile provinceFile with
  | (_, some err) => (some ("failed to read province.json: " ++ err), ds)
  | (provinceData, none) =>
    match UnmarshalProvinceData H provinceData with
    | (_, some err) => (some ("failed to parse province.json: " ++ err), ds)
    | (provinces, none) =>
      let wardFile := H.Join ds.dataPath "ward.json"
      match H.ReadFile wardFile with
      | (_, some err) => (some ("failed to read ward.json: " ++ err), ds)
      | (wardData, none) =>
        match UnmarshalWardData H wardData with
        | (_, some err) => (some ("failed to parse ward.json: " ++ err), ds)
        | (wards, none) =>
          (none, { ds with provinces := provinces, wards := wards, loadTime := H.Now })

/-- Method `DataService.ReloadData` (data_loader.go). -/
def DataService.ReloadData (H : Host) (ds : DataService) : Option String × DataService :=
  ds.LoadData H

/-- Method `DataService.GetLoadTime` (data_loader.go). -/
def DataService.GetLoadTime (ds : DataService) : Nat := ds.loadTime

/-- Method `DataService.IsDataLoaded` (data_loader.go). -/
def DataService.IsDataLoaded (ds : DataService) : Bool :=
  decide (ds.provinces.length > 0) && decide (ds.wards.length > 0)

/-! ## data_loader.go: queries -/

/-- Method `DataService.GetProvince` (data_loader.go). -/
def DataService.GetProvince (ds : DataService) (code : String) :
    Option Province × Option String :=
  match mapGet ds.provinces code with
  | none => (none, some ("province with code " ++ code ++ " not found"))
  | some province => (some province, none)

/-- Method `DataService.GetWard` (data_loader.go). -/
def DataService.GetWard (ds : DataService) (code : String) :
    Option Ward × Option String :=
  match mapGet ds.wards code with
  | none => (none, some ("ward with code " ++ code ++ " not found"))
  | some ward => (some ward, none)

/-- The comparison `provinces[i].Name < provinces[j].Name` passed to `sort.Slice`. -/
def Province.lessName (a b : Province) : Bool := strLess a.Name b.Name

/-- The comparison `wards[i].Name < wards[j].Name` passed to `sort.Slice`. -/
def Ward.lessName (a b : Ward) : Bool := strLess a.Name b.Name

/-- The slice `filteredProvinces` of `SearchProvinces` once filtered and sorted,
as it is handed to `PaginateSlice`. -/
def DataService.matchedProvinces (L : StdLib) (ds : DataService)
    (search typeFilter : String) : List Province :=
  L.sortSlice Province Province.lessName
    (ProvinceData.ToSliceWithFilters L ds.provinces search typeFilter)

/-- The slice `filteredWards` of `SearchWards` once filtered and sorted, as it is
handed to `PaginateSlice`. -/
def DataService.matchedWards (L : StdLib) (ds : DataService)
    (search typeFilter provinceCode : String) : List Ward :=
  L.sortSlice Ward Ward.lessName
    (WardData.ToSliceWithFilters L ds.wards search typeFilter provinceCode)

/-- Method `DataService.SearchProvinces` (data_loader.go); `none` is a panic, of
the slice expression or of the type assertion `.([]models.Province)`. -/
def DataService.SearchProvinces (L : StdLib) (ds : DataService)
    (search typeFilter : String) (limit offset : Int) : Option (List Province × Int) :=
  match PaginateSlice (.provinces (ds.matchedProvinces L search typeFilter)) limit offset with
  | some (.provinces paginatedData, total) => some (paginatedData, total)
  | _ => none

/-- Method `DataService.SearchWards` (data_loader.go); `none` is a panic, of the
slice expression or of the type assertion `.([]models.Ward)`. -/
def DataService.SearchWards (L : StdLib) (ds : DataService)
    (search typeFilter provinceCode : String) (limit offset : Int) :
    Option (List Ward × Int) :=
  match PaginateSlice (.wards (ds.matchedWards L search typeFilter provinceCode))
      limit offset with
  | some (.wards paginatedData, total) => some (paginatedData, total)
  | _ => none

/-- Method `DataService.ValidateAddress` (data_loader.go). -/
def DataService.ValidateAddress (ds : DataService) (provinceCode wardCode : String) :
    Option Ward × Bool :=
  match mapGet ds.provinces provinceCode with
  | none => (none, false)
  | some _ =>
    match mapGet ds.wards wardCode with
    | none => (none, false)
    | some ward =>
      if ward.ParentCode ≠ provinceCode then (none, false)
      else (some ward, true)

/-- Method `DataService.GetWardWithProvince` (data_loader.go): the ward pointer,
the province pointer and the error. -/
def DataService.GetWardWithProvince (ds : DataService) (wardCode : String) :
    Option Ward × Option Province × Option String :=
  match mapGet ds.wards wardCode with
  | none => (none, none, some ("ward with code " ++ wardCode ++ " not found"))
  | some ward =>
    match mapGet ds.provinces ward.ParentCode with
    | none => (some ward, none,
        some ("province with code " ++ ward.ParentCode ++ " not found"))
    | some province => (some ward, some province, none)

/-! ## handlers.go: GET /api/v1/wards/:code -/

/-- The entry `province` of the answer of `APIHandler.GetWard`: the four fields
`code`, `name`, `name_with_type` and `type` that the handler copies from the
province. -/
structure ProvinceInfo where
  code : String
  name : String
  name_with_type : String
  type_ : String
deriving DecidableEq, Repr

/-- The JSON answer of `APIHandler.GetWard`: the HTTP status, the `success` and
`message` fields, and under `data` the eight fields of the ward with the
optional `province` entry. -/
structure WardReply where
  status : Nat
  success : Bool
  message : String
  data : Option (Ward × Option ProvinceInfo)
deriving DecidableEq, Repr

/-- Method `APIHandler.GetWard` (handlers.go) on the path parameter `code`;
`none` is the panic of dereferencing a nil ward. -/
def APIHandler.GetWard (ds : DataService) (code : String) : Option WardReply :=
  if !ds.IsDataLoaded then
    some { status := 503, success := false, message := "Data not loaded", data := none }
  else if code == "" then
    some { status := 400, success := false, message := "Ward code is required", data := none }
  else
    match ds.GetWardWithProvince code with
    | (_, _, some _) =>
      some { status := 404, success := false, message := "Ward not found", data := none }
    | (some ward, province, none) =>
      some { status := 200, success := true, message := "",
             data := some (ward, province.map (fun p =>
               { code := p.Code, name := p.Name, name_with_type := p.NameWithType,
                 type_ := p.Type_ })) }
    | (none, _, none) => none

/-! ## The loop tests and the spec's wording -/

/-- The test a province passes in the loop of `ProvinceData.ToSliceWithFilters`. -/
def Province.passes (L : StdLib) (search typeFilter : String) (p : Province) : Bool :=
  (search == "" || p.MatchesQuery L search) && p.MatchesType typeFilter

/-- The test a ward passes in the loop of `WardData.ToSliceWithFilters`. -/
def Ward.passes (L : StdLib) (search typeFilter parentCode : String) (w : Ward) : Bool :=
  (search == "" || w.MatchesQuery L search) && w.MatchesType typeFilter &&
    w.MatchesParentCode parentCode

/-- Spec wording: the lower-cased search text is a substring of the lower-cased
field. -/
def lowerSubstring (L : StdLib) (search field : String) : Prop :=
  (L.ToLower search).data <:+: (L.ToLower field).data

/-- Spec wording of a ward match: the text is empty or occurs in one of the five
display fields, the type filter is empty or equal, the parent filter is empty or
equal. -/
def WardMatchSpec (L : StdLib) (search typeFilter parentFilter : String) (w : Ward) : Prop :=
  (search = "" ∨ lowerSubstring L search w.Name ∨ lowerSubstring L search w.Slug ∨
      lowerSubstring L search w.NameWithType ∨ lowerSubstring L search w.Path ∨
      lowerSubstring L search w.PathWithType) ∧
    (typeFilter = "" ∨ w.Type_ = typeFilter) ∧
    (parentFilter = "" ∨ w.ParentCode = parentFilter)

/-- Spec wording of a province match: the text is empty or occurs in one of the
three display fields, the type filter is empty or equal. -/
def ProvinceMatchSpec (L : StdLib) (search typeFilter : String) (p : Province) : Prop :=
  (search = "" ∨ lowerSubstring L search p.Name ∨ lowerSubstring L search p.Slug ∨
      lowerSubstring L search p.NameWithType) ∧
    (typeFilter = "" ∨ p.Type_ = typeFilter)

/-- Spec wording: the contiguous sub-sequence of `s` from index `lo` (inclusive)
to index `hi` (exclusive). -/
def subSequence {α : Type} (s : List α) (lo hi : Nat) : List α := (s.take hi).drop lo

/-! ## Sample data -/

/-- The province of the spec's scenario: code 01, name Hà Nội. -/
def haNoi : Province :=
  { Code := "01", Name := "Hà Nội", Slug := "", Type_ := "", NameWithType := "" }

/-- The ward of the spec's scenario: code 00001, name Phúc Xá, parent 01; the
fields the scenario leaves out are empty, as `json.Unmarshal` leaves them. -/
def phucXa : Ward :=
  { Code := "00001", Name := "Phúc Xá", Slug := "", Type_ := "", NameWithType := "",
    Path := "", PathWithType := "", ParentCode := "01" }

/-- The snapshot of the spec's scenario. -/
def sampleStore : DataService :=
  { provinces := [("01", haNoi)], wards := [("00001", phucXa)], loadTime := 0,
    dataPath := "data" }

instance (L : StdLib) (search typeFilter parentFilter : String) (w : Ward) :
    Decidable (WardMatchSpec L search typeFilter parentFilter w) := by
  unfold WardMatchSpec lowerSubstring
  infer_instance

instance (L : StdLib) (search typeFilter : String) (p : Province) :
    Decidable (ProvinceMatchSpec L search typeFilter p) := by
  unfold ProvinceMatchSpec lowerSubstring
  infer_instance

/-- A second ward, Trúc Bạch, in province 01. -/
def trucBach : Ward :=
  { Code := "00004", Name := "Trúc Bạch", Slug := "", Type_ := "", NameWithType := "",
    Path := "", PathWithType := "", ParentCode := "01" }

/-- The province An Giang with its display name. -/
def anGiang : Province :=
  { Code := "89", Name := "An Giang", Slug := "an-giang", Type_ := "tinh",
    NameWithType := "Tỉnh An Giang" }

/-- The city Hà Nội with its display name. -/
def thanhPhoHaNoi : Province :=
  { Code := "01", Name := "Hà Nội", Slug := "ha-noi", Type_ := "thanh-pho",
    NameWithType := "Thành phố Hà Nội" }

/-- A ward named Tân Thành in province 70. -/
def tanThanhA : Ward :=
  { Code := "10001", Name := "Tân Thành", Slug := "tan-thanh", Type_ := "xa",
    NameWithType := "Xã Tân Thành", Path := "Tân Thành, Bình Phước",
    PathWithType := "Xã Tân Thành, Tỉnh Bình Phước", ParentCode := "70" }

/-- A ward named Tân Thành in province 80. -/
def tanThanhB : Ward :=
  { Code := "20002", Name := "Tân Thành", Slug := "tan-thanh", Type_ := "xa",
    NameWithType := "Xã Tân Thành", Path := "Tân Thành, Long An",
    PathWithType := "Xã Tân Thành, Tỉnh Long An", ParentCode := "80" }

/-- A snapshot with two provinces and two wards of one name, in one `range` order. -/
def twoStore : DataService :=
  { provinces := [("89", anGiang), ("01", thanhPhoHaNoi)],
    wards := [("10001", tanThanhA), ("20002", tanThanhB)], loadTime := 0, dataPath := "data" }

/-- The snapshot `twoStore` with both maps visited in the other `range` order. -/
def twoStoreSwapped : DataService :=
  { provinces := [("01", thanhPhoHaNoi), ("89", anGiang)],
    wards := [("20002", tanThanhB), ("10001", tanThanhA)], loadTime := 0, dataPath := "data" }

/-- A loaded snapshot whose only ward names a province, 01, that is not a key. -/
def danglingStore : DataService :=
  { provinces := [("89", anGiang)], wards := [("00001", phucXa)], loadTime := 0,
    dataPath := "data" }

/-! ## Hosts -/

/-- A load fails when a file cannot be read or parsed; the ward file is judged on
its own, whether or not the province file was good. -/
def loadFails (H : Host) (ds : DataService) : Prop :=
  (H.ReadFile (H.Join ds.dataPath "province.json")).2 ≠ none ∨
  (UnmarshalProvinceData H (H.ReadFile (H.Join ds.dataPath "province.json")).1).2 ≠ none ∨
  (H.ReadFile (H.Join ds.dataPath "ward.json")).2 ≠ none ∨
  (UnmarshalWardData H (H.ReadFile (H.Join ds.dataPath "ward.json")).1).2 ≠ none

/-- A host with the directory `data`: `province.json` holds `{}` (bytes 123, 125)
and `ward.json` holds the truncated text `{` (byte 123); `json.Unmarshal` turns
`{}` into an empty map and rejects `{`. -/
def truncatedWardHost : Host where
  Join := fun dir name => dir ++ "/" ++ name
  ReadFile := fun path =>
    if path = "data/province.json" then ([123, 125], none)
    else if path = "data/ward.json" then ([123], none)
    else ([], some "no such file or directory")
  jsonUnmarshalProvinces := fun data =>
    if data = [123, 125] then ([], none) else ([], some "unexpected end of JSON input")
  jsonUnmarshalWards := fun data =>
    if data = [123, 125] then ([], none) else ([], some "unexpected end of JSON input")
  Now := 1700000000

/-- The text `{"01":{"code":"01","name":"Hà Nội"}}`, as bytes. -/
def provinceJson : Bytes :=
  ("\x7b\"01\":\x7b\"code\":\"01\",\"name\":\"H\\u00e0 N\\u1ed9i\"\x7d\x7d").data.map Char.toNat

/-- The text
`{"00001":{"code":"00001","name":"Phúc Xá","parent_code":"01"}}`, as
bytes. -/
def wardJson : Bytes :=
  ("\x7b\"00001\":\x7b\"code\":\"00001\",\"name\":\"Ph\\u00fac X\\u00e1\"," ++
    "\"parent_code\":\"01\"\x7d\x7d").data.map Char.toNat

/-- A host with the directory `data` whose files hold the spec's scenario, at the
given time; `json.Unmarshal` is given on these two texts. -/
def scenarioHost (now : Nat) : Host where
  Join := fun dir name => dir ++ "/" ++ name
  ReadFile := fun path =>
    if path = "data/province.json" then (provinceJson, none)
    else if path = "data/ward.json" then (wardJson, none)
    else ([], some "no such file or directory")
  jsonUnmarshalProvinces := fun data =>
    if data = provinceJson then ([("01", haNoi)], none)
    else ([], some "unexpected end of JSON input")
  jsonUnmarshalWards := fun data =>
    if data = wardJson then ([("00001", phucXa)], none)
    else ([], some "unexpected end of JSON input")
  Now := now

/-! ## data_loader.go: global search, types, statistics -/

/-- SearchData (models.go, `type SearchData`). -/
structure SearchData where
  Provinces : List Province
  Wards : List Ward
deriving DecidableEq, Repr

/-- The statement `if len(x) > limit { x = x[:limit] }` of `GlobalSearch`; `none`
is the panic of the slice expression. -/
def truncateTo {α : Type} (x : List α) (limit : Int) : Option (List α) :=
  if (x.length : Int) > limit then sliceExpr x 0 limit else some x

/-- Method `DataService.GlobalSearch` (data_loader.go); `none` is a panic. -/
def DataService.GlobalSearch (L : StdLib) (ds : DataService) (query entity : String)
    (limit : Int) : Option SearchData :=
  match (if entity == "all" || entity == "province" then
      truncateTo (L.sortSlice Province Province.lessName
        (ProvinceData.ToSliceWithFilters L ds.provinces query "")) limit
    else some []) with
  | none => none
  | some provinces =>
    match (if entity == "all" || entity == "ward" then
        truncateTo (L.sortSlice Ward Ward.lessName
          (WardData.ToSliceWithFilters L ds.wards query "" "")) limit
      else some []) with
    | none => none
    | some wards => some { Provinces := provinces, Wards := wards }

/-- Map assignment `m[key] = v`: the entry of `key` is replaced, or a new entry is
added. -/
def mapSet {β : Type} : List (String × β) → String → β → List (String × β)
  | [], key, v => [(key, v)]
  | (k, x) :: rest, key, v =>
    if k = key then (k, v) :: rest else (k, x) :: mapSet rest key v

/-- The map `typeMap` of `GetProvinceTypes` after its first loop. -/
def DataService.provinceTypeMap (ds : DataService) : List (String × Bool) :=
  ds.provinces.foldl (fun typeMap e => mapSet typeMap e.2.Type_ true) []

/-- The map `typeMap` of `GetWardTypes` after its first loop. -/
def DataService.wardTypeMap (ds : DataService) : List (String × Bool) :=
  ds.wards.foldl (fun typeMap e => mapSet typeMap e.2.Type_ true) []

/-- The second loop and the sort of `GetProvinceTypes` and `GetWardTypes`: the keys
of `typeMap` are appended in `range` order and sorted by `sort.Strings`, which
is the sort of `sort.Slice` with the comparison `types[i] < types[j]`. -/
def sortedKeys (L : StdLib) (typeMap : List (String × Bool)) : List String :=
  L.sortSlice String (fun a b => strLess a b)
    (typeMap.foldl (fun types e => types ++ [e.1]) [])

/-- Method `DataService.GetProvinceTypes` (data_loader.go). -/
def DataService.GetProvinceTypes (L : StdLib) (ds : DataService) : List String :=
  sortedKeys L ds.provinceTypeMap

/-- Method `DataService.GetWardTypes` (data_loader.go). -/
def DataService.GetWardTypes (L : StdLib) (ds : DataService) : List String :=
  sortedKeys L ds.wardTypeMap

/-- Statement `m[key]++` on a `map[string]int`: a missing key counts as zero. -/
def mapIncr (m : List (String × Int)) (key : String) : List (String × Int) :=
  mapSet m key ((mapGet m key).getD 0 + 1)

/-- The `map[string]interface{}` returned by `GetDataStats`: the four keys that
are always set, and the two that are set only in the `if` branch (`none` when
the key is absent). -/
structure DataStats where
  provinces : Int
  wards : Int
  load_time : Nat
  is_loaded : Bool
  province_types : Option (List (String × Int))
  ward_types : Option (List (String × Int))
deriving DecidableEq, Repr

/-- Method `DataService.GetDataStats` (data_loader.go). -/
def DataService.GetDataStats (ds : DataService) : DataStats :=
  let stats : DataStats :=
    { provinces := ds.provinces.length, wards := ds.wards.length,
      load_time := ds.loadTime, is_loaded := ds.IsDataLoaded,
      province_types := none, ward_types := none }
  if ds.IsDataLoaded then
    let provinceTypes := ds.provinces.foldl (fun m e => mapIncr m e.2.Type_) []
    let wardTypes := ds.wards.foldl (fun m e => mapIncr m e.2.Type_) []
    { stats with province_types := some provinceTypes, ward_types := some wardTypes }
  else stats

/-- Method `DataService.GetWardsByProvince` (data_loader.go). -/
def DataService.GetWardsByProvince (L : StdLib) (ds : DataService)
    (provinceCode : String) : List Ward :=
  L.sortSlice Ward Ward.lessName
    (WardData.ToSliceWithFilters L ds.wards "" "" provinceCode)

/-- A snapshot with provinces and no wards. -/
def halfEmptyStore : DataService :=
  { provinces := [("89", anGiang), ("01", thanhPhoHaNoi)], wards := [], loadTime := 0,
    dataPath := "data" }

/-! ## Pages in sequence -/

/-- The value of `end` with which `PaginateSlice` evaluates `s[offset:end]`, for a
list of `total` elements. -/
def paginateEnd (total limit offset : Int) : Int :=
  let end0 := wrapInt (offset + limit)
  if end0 > total then total else end0

/-- A caller that asks for `n` pages of `limit` elements, the first at `offset`
and each next one at `offset + limit` (a Go `int` addition), and concatenates
their items; `none` when a call panics. -/
def concatPages {α : Type} (s : List α) (limit : Int) : Nat → Int → Option (List α)
  | 0, _ => some []
  | n + 1, offset =>
    match paginateCase s limit offset with
    | none => none
    | some (items, _) =>
      match concatPages s limit n (wrapInt (offset + limit)) with
      | none => none
      | some rest => some (items ++ rest)

/-- The number of pages of `limit` elements that cover `len` elements. -/
def pagesNeeded (len : Nat) (limit : Int) : Nat := (len + limit.toNat - 1) / limit.toNat

/-! ## float64 arithmetic of the page count -/

/-- The loop behind `ilog2`: halve until below 2, at most `fuel` times. -/
def ilog2Fuel : Nat → Nat → Nat
  | 0, _ => 0
  | fuel + 1, n => if n < 2 then 0 else ilog2Fuel fuel (n / 2) + 1

/-- The position of the highest set bit of a positive integer below `2^64`: the
`k` with `2^k ≤ n < 2^(k+1)`. -/
def ilog2 (n : Nat) : Nat := ilog2Fuel 64 n

/-- Rounding of the quotient `num / den` to the nearest integer, ties to the even
one: the rounding mode of IEEE 754 arithmetic. -/
def roundHalfEven (num den : Nat) : Nat :=
  if 2 * (num % den) > den ∨ (2 * (num % den) = den ∧ (num / den) % 2 = 1)
  then num / den + 1 else num / den

/-- Conversion `float64(n)` of a non-negative Go int: `n` rounded to 53
significant bits. The result is an integer, given here as such. -/
def float64OfNat (n : Nat) : Nat :=
  if n < 2 ^ 53 then n
  else roundHalfEven n (2 ^ (ilog2 n - 52)) * 2 ^ (ilog2 n - 52)

/-- The binary exponent `e` of the float64 quotient `a / b` of two positive
integer-valued floats below `2^64`: the quotient lies in
`[2^52 * 2^e, 2^53 * 2^e)`. -/
def quoExponent (a b : Nat) : Int :=
  let d : Int := (ilog2 a : Int) - (ilog2 b : Int)
  (if b * 2 ^ d.toNat ≤ a * 2 ^ (-d).toNat then d else d - 1) - 52

/-- The 53-bit significand of the float64 quotient `a / b`: the quotient divided
by `2^e` and rounded to the nearest integer, ties to even. -/
def quoMantissa (a b : Nat) : Nat :=
  roundHalfEven (a * 2 ^ (-(quoExponent a b)).toNat) (b * 2 ^ (quoExponent a b).toNat)

/-- Expression `int(math.Ceil(x / y))` for two integer-valued floats `x = a ≥ 0`
and `y = b > 0` below `2^64`: the float64 quotient is
`quoMantissa * 2^quoExponent`, `math.Ceil` rounds it up to an integer, and the
conversion to `int` of that integer is exact. -/
def ceilQuoFloat64 (a b : Nat) : Nat :=
  if a = 0 then 0
  else
    (quoMantissa a b * 2 ^ (quoExponent a b).toNat + 2 ^ (-(quoExponent a b)).toNat - 1)
      / 2 ^ (-(quoExponent a b)).toNat

/-- Conversion `int(x)` of a float64 `x ≥ 0` with an integer value: exact below
`2^63`; from `2^63` on the Go specification leaves the result to the
implementation, and amd64 gives `-2^63`. -/
def intOfFloat64 (x : Nat) : Int :=
  if (x : Int) < intLimit then (x : Int) else -intLimit

/-- Expression `int(math.Ceil(float64(total) / float64(limit)))` of the handlers,
for `total ≥ 0` (a length) and `limit ≥ 1` (from `parseQueryParams`). -/
def pageCount (total limit : Int) : Int :=
  intOfFloat64 (ceilQuoFloat64 (float64OfNat total.toNat) (float64OfNat limit.toNat))

/-! ## handlers.go: query parameters, paginated listings, global search -/

/-- The library routines the handlers call on request parameters:
`strings.TrimSpace` and `strconv.Atoi` (`none` for a non-nil error). -/
structure Web where
  /-- Library routine `strings.TrimSpace`. -/
  TrimSpace : String → String
  /-- Library routine `strconv.Atoi`. -/
  Atoi : String → Option Int

/-- Library routine `strings.TrimSpace` on strings whose white space is ASCII: blank, tab,
line feed, vertical tab, form feed and carriage return are cut from both ends. -/
def asciiTrimSpace (s : String) : String :=
  let isSpace := fun c : Char => c.toNat = 32 ∨ (9 ≤ c.toNat ∧ c.toNat ≤ 13)
  String.mk ((s.data.dropWhile (fun c => decide (isSpace c))).reverse.dropWhile
    (fun c => decide (isSpace c))).reverse

/-- The value of a string of decimal digits, `none` when a character is not a
digit. -/
def digitsToNat (acc : Nat) : List Char → Option Nat
  | [] => some acc
  | c :: cs =>
    if 48 ≤ c.toNat ∧ c.toNat ≤ 57 then digitsToNat (acc * 10 + (c.toNat - 48)) cs else none

/-- Library routine `strconv.Atoi` on a string without sign: decimal digits whose value is
a Go int; everything else is an error. -/
def decimalAtoi (s : String) : Option Int :=
  if s.data = [] then none
  else
    match digitsToNat 0 s.data with
    | none => none
    | some n => if (n : Int) < intLimit then some (n : Int) else none

/-- A `Web` for concrete evaluation. -/
def asciiWeb : Web where
  TrimSpace := asciiTrimSpace
  Atoi := decimalAtoi

/-- Go `len(s)` of a string: its length in bytes, in UTF-8. -/
def byteLen (s : String) : Int := (s.utf8ByteSize : Int)

/-- Method `APIHandler.parseQueryParams` (handlers.go) on the raw values of the
parameters `search`, `type`, `limit` and `offset` (empty when absent). -/
def APIHandler.parseQueryParams (W : Web) (searchP typeP limitP offsetP : String) :
    String × String × Int × Int :=
  let search := W.TrimSpace searchP
  let typeFilter := W.TrimSpace typeP
  let limit : Int :=
    if limitP ≠ "" then
      match W.Atoi limitP with
      | some parsed => if parsed > 0 ∧ parsed ≤ 1000 then parsed else 50
      | none => 50
    else 50
  let offset : Int :=
    if offsetP ≠ "" then
      match W.Atoi offsetP with
      | some parsed => if parsed ≥ 0 then parsed else 0
      | none => 0
    else 0
  (search, typeFilter, limit, offset)

/-- Pagination (models.go, `type Pagination`). -/
structure Pagination where
  Total : Int
  Limit : Int
  Offset : Int
  Pages : Int
deriving DecidableEq, Repr

/-- The literal `models.Pagination{...}` that `GetProvinces`, `GetWards` and
`GetProvinceWards` build. -/
def paginationOf (total limit offset : Int) : Pagination :=
  { Total := total, Limit := limit, Offset := offset, Pages := pageCount total limit }

/-- Spec wording: the page count of an envelope is `ceil(total / limit)`, the
least integer `p` with `p * limit ≥ total`, 0 when the total is 0, for a total
≥ 0 and a limit ≥ 1. -/
def IsCeilPages (pg : Pagination) : Prop :=
  0 ≤ pg.Total ∧ 1 ≤ pg.Limit ∧ pg.Total ≤ pg.Pages * pg.Limit ∧
    (∀ p : Int, pg.Total ≤ p * pg.Limit → pg.Pages ≤ p) ∧
    (pg.Total = 0 → pg.Pages = 0) ∧
    pg.Pages = (pg.Total + pg.Limit - 1) / pg.Limit

/-- The JSON answer of a listing handler: an `APIResponse` with `success` false,
or a `PaginatedResponse` with status 200. -/
inductive ListReply (α : Type) where
  | error (status : Nat) (message : String)
  | page (data : List α) (pagination : Pagination)
deriving DecidableEq, Repr

/-- Method `APIHandler.GetProvinces` (handlers.go); `none` is a panic. -/
def APIHandler.GetProvinces (L : StdLib) (W : Web) (ds : DataService)
    (searchP typeP limitP offsetP : String) : Option (ListReply Province) :=
  if !ds.IsDataLoaded then some (.error 503 "Data not loaded")
  else
    match APIHandler.parseQueryParams W searchP typeP limitP offsetP with
    | (search, typeFilter, limit, offset) =>
      match ds.SearchProvinces L search typeFilter limit offset with
      | none => none
      | some (provinces, total) => some (.page provinces (paginationOf total limit offset))

/-- Method `APIHandler.GetProvinceWards` (handlers.go) on the path parameter
`code`; `none` is a panic. -/
def APIHandler.GetProvinceWards (L : StdLib) (W : Web) (ds : DataService)
    (provinceCode searchP typeP limitP offsetP : String) : Option (ListReply Ward) :=
  if !ds.IsDataLoaded then some (.error 503 "Data not loaded")
  else if provinceCode == "" then some (.error 400 "Province code is required")
  else
    match ds.GetProvince provinceCode with
    | (_, some _) => some (.error 404 "Province not found")
    | (_, none) =>
      match APIHandler.parseQueryParams W searchP typeP limitP offsetP with
      | (search, typeFilter, limit, offset) =>
        match ds.SearchWards L search typeFilter provinceCode limit offset with
        | none => none
        | some (wards, total) => some (.page wards (paginationOf total limit offset))

/-- Method `APIHandler.GetWards` (handlers.go); `none` is a panic. -/
def APIHandler.GetWards (L : StdLib) (W : Web) (ds : DataService)
    (searchP typeP limitP offsetP provinceCodeP : String) : Option (ListReply Ward) :=
  if !ds.IsDataLoaded then some (.error 503 "Data not loaded")
  else
    match APIHandler.parseQueryParams W searchP typeP limitP offsetP with
    | (search, typeFilter, limit, offset) =>
      match ds.SearchWards L search typeFilter (W.TrimSpace provinceCodeP) limit offset with
      | none => none
      | some (wards, total) => some (.page wards (paginationOf total limit offset))

/-- The JSON answer of `APIHandler.GlobalSearch`: the HTTP status, and the
`success`, `message`, `data` and `query` fields. -/
structure SearchReply where
  status : Nat
  success : Bool
  message : String
  data : Option SearchData
  query : String
deriving DecidableEq, Repr

/-- Method `APIHandler.GlobalSearch` (handlers.go) on the raw values of the
parameters `q`, `entity` and `limit`; `none` is a panic. The service is called in
the last branch only. -/
def APIHandler.GlobalSearch (L : StdLib) (W : Web) (ds : DataService)
    (qP entityP limitP : String) : Option SearchReply :=
  if !ds.IsDataLoaded then
    some { status := 503, success := false, message := "Data not loaded", data := none,
           query := "" }
  else
    let query := W.TrimSpace qP
    if byteLen query < 2 then
      some { status := 400, success := false,
             message := "Search query must be at least 2 characters", data := none,
             query := "" }
    else
      let entity := if W.TrimSpace entityP == "" then "all" else W.TrimSpace entityP
      let limit : Int :=
        if limitP ≠ "" then
          match W.Atoi limitP with
          | some parsed => if parsed > 0 ∧ parsed ≤ 100 then parsed else 20
          | none => 20
        else 20
      match ds.GlobalSearch L query entity limit with
      | none => none
      | some results =>
        some { status := 200, success := true, message := "", data := some results,
               query := query }

/-- A host with the directory `data` in which both files hold `{}`. -/
def emptyObjectHost : Host where
  Join := fun dir name => dir ++ "/" ++ name
  ReadFile := fun path =>
    if path = "data/province.json" then ([123, 125], none)
    else if path = "data/ward.json" then ([123, 125], none)
    else ([], some "no such file or directory")
  jsonUnmarshalProvinces := fun data =>
    if data = [123, 125] then ([], none) else ([], some "unexpected end of JSON input")
  jsonUnmarshalWards := fun data =>
    if data = [123, 125] then ([], none) else ([], some "unexpected end of JSON input")
  Now := 1700000000

/-! # Theorems -/

/-! ## Strings and the standard library -/

/-- The routine `Contains` decides the infix relation. -/
theorem contains_iff_infix (s substr : String) :
    Contains s substr = true ↔ substr.data <:+: s.data := by
  unfold Contains
  rw [List.any_eq_true]
  constructor
  · rintro ⟨t, ht, hp⟩
    rw [List.mem_tails] at ht
    rw [List.isPrefixOf_iff_prefix] at hp
    exact hp.isInfix.trans ht.isInfix
  · intro h
    obtain ⟨t, hp, ht⟩ := List.infix_iff_prefix_suffix.mp h
    exact ⟨t, (List.mem_tails _ _).mpr ht, List.isPrefixOf_iff_prefix.mpr hp⟩

/-- The comparison `strLess` is the strict order of `String`. -/
theorem strLess_iff (a b : String) : strLess a b = true ↔ a < b := by
  unfold strLess
  rw [decide_eq_true_iff]
  exact String.lt_iff_toList_lt.symm

/-- The negation of `strLess` is the reversed weak order of `String`. -/
theorem strLess_eq_false_iff (a b : String) : strLess a b = false ↔ b ≤ a := by
  rw [← not_lt, ← strLess_iff]
  simp

/-- A backward pass keeps the elements. -/
theorem insertBack_perm {α : Type} (less : α → α → Bool) (x : α) (rev : List α) :
    (insertBack less x rev).Perm (x :: rev) := by
  induction rev with
  | nil => exact List.Perm.refl _
  | cons y rev ih =>
    unfold insertBack
    split
    · exact (List.Perm.cons y ih).trans (List.Perm.swap x y rev)
    · exact List.Perm.refl _

/-- The loop of `insertionSortLessFunc` keeps the elements. -/
theorem foldl_insertBack_perm {α : Type} (less : α → α → Bool) (l acc : List α) :
    (l.foldl (fun rev x => insertBack less x rev) acc).Perm (acc ++ l) := by
  induction l generalizing acc with
  | nil => simp
  | cons x l ih =>
    rw [List.foldl_cons]
    refine (ih _).trans ?_
    refine (List.Perm.append_right l (insertBack_perm less x acc)).trans ?_
    simpa using (@List.perm_middle _ x acc l).symm

/-- The routine `insertionSortLessFunc` returns a rearrangement of its input. -/
theorem insertionSortLessFunc_perm (α : Type) (less : α → α → Bool) (l : List α) :
    (insertionSortLessFunc α less l).Perm l := by
  unfold insertionSortLessFunc
  refine (List.reverse_perm _).trans ?_
  simpa using foldl_insertBack_perm less l []

/-- A backward pass into a prefix sorted by a string key, stored in reverse,
leaves it sorted. -/
theorem insertBack_sorted {α : Type} (key : α → String) (x : α) (rev : List α)
    (h : rev.Pairwise (fun a b => key b ≤ key a)) :
    (insertBack (fun a b => strLess (key a) (key b)) x rev).Pairwise
      (fun a b => key b ≤ key a) := by
  induction rev with
  | nil => simp [insertBack]
  | cons y rev ih =>
    rw [List.pairwise_cons] at h
    unfold insertBack
    split
    · rename_i hxy
      rw [strLess_iff] at hxy
      rw [List.pairwise_cons]
      refine ⟨?_, ih h.2⟩
      intro z hz
      rcases List.mem_cons.mp ((insertBack_perm _ x rev).mem_iff.mp hz) with hz | hz
      · subst hz
        exact le_of_lt hxy
      · exact h.1 z hz
    · rename_i hxy
      have hyx : key y ≤ key x := by
        rw [← strLess_eq_false_iff]
        simpa using hxy
      rw [List.pairwise_cons]
      refine ⟨?_, List.pairwise_cons.mpr h⟩
      intro z hz
      rcases List.mem_cons.mp hz with hz | hz
      · subst hz
        exact hyx
      · exact le_trans (h.1 z hz) hyx

/-- The loop of `insertionSortLessFunc` keeps the reversed prefix sorted. -/
theorem foldl_insertBack_sorted {α : Type} (key : α → String) (l acc : List α)
    (h : acc.Pairwise (fun a b => key b ≤ key a)) :
    (l.foldl (fun rev x => insertBack (fun a b => strLess (key a) (key b)) x rev) acc).Pairwise
      (fun a b => key b ≤ key a) := by
  induction l generalizing acc with
  | nil => simpa using h
  | cons x l ih =>
    rw [List.foldl_cons]
    exact ih _ (insertBack_sorted key x acc h)

/-- The routine `insertionSortLessFunc` meets the contract of `sort.Slice`. -/
theorem smallLib_sortContract : smallLib.SortContract := by
  intro α key l
  refine ⟨insertionSortLessFunc_perm α _ l, ?_⟩
  show (insertionSortLessFunc α _ l).Pairwise _
  unfold insertionSortLessFunc
  rw [List.pairwise_reverse]
  have h := foldl_insertBack_sorted key l [] List.Pairwise.nil
  refine h.imp ?_
  intro a b hab
  exact (strLess_eq_false_iff _ _).mpr hab

/-! ## Filtering -/

/-- A loop that appends the values passing a test computes a filter. -/
theorem foldl_append_if {β : Type} (t : β → Bool) (m : List (String × β)) (acc : List β) :
    m.foldl (fun out e => if t e.2 then out ++ [e.2] else out) acc
      = acc ++ (m.map Prod.snd).filter t := by
  induction m generalizing acc with
  | nil => simp
  | cons e m ih =>
    rw [List.foldl_cons, ih, List.map_cons, List.filter_cons]
    by_cases h : t e.2 = true
    · simp [h]
    · simp [h]

/-- The routine `ProvinceData.ToSliceWithFilters` keeps, in `range` order, the
provinces that pass. -/
theorem provinceToSliceWithFilters_eq (L : StdLib) (pd : ProvinceData)
    (search typeFilter : String) :
    ProvinceData.ToSliceWithFilters L pd search typeFilter
      = (pd.map Prod.snd).filter (Province.passes L search typeFilter) := by
  have h := foldl_append_if (Province.passes L search typeFilter) pd []
  simpa [ProvinceData.ToSliceWithFilters, Province.passes] using h

/-- The routine `WardData.ToSliceWithFilters` keeps, in `range` order, the wards
that pass. -/
theorem wardToSliceWithFilters_eq (L : StdLib) (wd : WardData)
    (search typeFilter parentCode : String) :
    WardData.ToSliceWithFilters L wd search typeFilter parentCode
      = (wd.map Prod.snd).filter (Ward.passes L search typeFilter parentCode) := by
  have h := foldl_append_if (Ward.passes L search typeFilter parentCode) wd []
  simpa [WardData.ToSliceWithFilters, Ward.passes] using h

/-- The test of the ward loop is the spec's match. -/
theorem ward_passes_iff (L : StdLib) (search typeFilter parentCode : String) (w : Ward) :
    w.passes L search typeFilter parentCode = true
      ↔ WardMatchSpec L search typeFilter parentCode w := by
  simp only [Ward.passes, Ward.MatchesQuery, Ward.MatchesType, Ward.MatchesParentCode,
    WardMatchSpec, lowerSubstring, Bool.and_eq_true, Bool.or_eq_true, beq_iff_eq,
    contains_iff_infix, or_assoc, and_assoc]

/-- The test of the province loop is the spec's match. -/
theorem province_passes_iff (L : StdLib) (search typeFilter : String) (p : Province) :
    p.passes L search typeFilter = true ↔ ProvinceMatchSpec L search typeFilter p := by
  simp only [Province.passes, Province.MatchesQuery, Province.MatchesType,
    ProvinceMatchSpec, lowerSubstring, Bool.and_eq_true, Bool.or_eq_true, beq_iff_eq,
    contains_iff_infix, or_assoc]

/-- Under the sort contract the slice handed to `PaginateSlice` is a
rearrangement of the filtered wards. -/
theorem matchedWards_perm (L : StdLib) (hL : L.SortContract) (ds : DataService)
    (search typeFilter provinceCode : String) :
    (ds.matchedWards L search typeFilter provinceCode).Perm
      ((ds.wards.map Prod.snd).filter (Ward.passes L search typeFilter provinceCode)) := by
  unfold DataService.matchedWards
  rw [wardToSliceWithFilters_eq]
  exact (hL Ward Ward.Name _).1

/-- Under the sort contract the slice handed to `PaginateSlice` is a
rearrangement of the filtered provinces. -/
theorem matchedProvinces_perm (L : StdLib) (hL : L.SortContract) (ds : DataService)
    (search typeFilter : String) :
    (ds.matchedProvinces L search typeFilter).Perm
      ((ds.provinces.map Prod.snd).filter (Province.passes L search typeFilter)) := by
  unfold DataService.matchedProvinces
  rw [provinceToSliceWithFilters_eq]
  exact (hL Province Province.Name _).1

/-! ## Pagination -/

/-- The value of `intLimit`. -/
theorem intLimit_eq : intLimit = 9223372036854775808 := by
  unfold intLimit
  norm_num

/-- An addition that stays in range is not changed by wrapping. -/
theorem wrapInt_eq_self (x : Int) (h0 : -intLimit ≤ x) (h1 : x < intLimit) :
    wrapInt x = x := by
  unfold wrapInt
  rw [intLimit_eq] at *
  omega

/-- Wrapping a sum that is not below the range never increases it. -/
theorem wrapInt_le_self (x : Int) (h0 : -intLimit ≤ x) : wrapInt x ≤ x := by
  unfold wrapInt
  rw [intLimit_eq] at *
  omega

/-- A successful slice expression has `hi - lo` elements. -/
theorem sliceExpr_length {α : Type} (s : List α) (lo hi : Int) (items : List α)
    (h : sliceExpr s lo hi = some items) :
    0 ≤ lo ∧ lo ≤ hi ∧ hi ≤ (s.length : Int) ∧ (items.length : Int) = hi - lo := by
  unfold sliceExpr at h
  split at h
  · rename_i hb
    obtain ⟨h0, h1, h2⟩ := hb
    cases h
    refine ⟨h0, h1, h2, ?_⟩
    rw [List.length_take, List.length_drop]
    omega
  · cases h

/-- Without overflow, or when the offset is past the end, a page is the
sub-sequence `[offset, min(offset + limit, len))` and the total is the length. -/
theorem paginateCase_eq {α : Type} (s : List α) (limit offset : Int)
    (hl : 1 ≤ limit) (ho : 0 ≤ offset)
    (hno : (s.length : Int) ≤ offset ∨ offset + limit < intLimit) :
    paginateCase s limit offset
      = some (subSequence s offset.toNat (min (offset + limit) s.length).toNat,
          (s.length : Int)) := by
  unfold paginateCase subSequence
  by_cases hge : offset ≥ (s.length : Int)
  · simp only [hge, if_true]
    have h1 : s.length ≤ offset.toNat := by omega
    rw [List.drop_eq_nil_of_le]
    rw [List.length_take]
    exact le_trans (min_le_right _ _) h1
  · have hlt : offset + limit < intLimit := by
      rcases hno with h | h
      · exact absurd h hge
      · exact h
    have hw : wrapInt (offset + limit) = offset + limit := by
      apply wrapInt_eq_self
      · rw [intLimit_eq]
        omega
      · exact hlt
    simp only [hge, if_false, hw]
    unfold sliceExpr
    by_cases hgt : offset + limit > (s.length : Int)
    · have hmin : min (offset + limit) (s.length : Int) = s.length := by omega
      simp only [hgt, if_true, hmin]
      have hb : 0 ≤ offset ∧ offset ≤ (s.length : Int) ∧ (s.length : Int) ≤ s.length := by
        omega
      simp only [hb, and_self, if_true, Option.map_some', Int.toNat_ofNat]
      rw [List.drop_take]
    · have hmin : min (offset + limit) (s.length : Int) = offset + limit := by omega
      simp only [hgt, if_false, hmin]
      have hb : 0 ≤ offset ∧ offset ≤ offset + limit ∧ offset + limit ≤ s.length := by
        omega
      simp only [hb, and_self, if_true, Option.map_some']
      rw [List.drop_take]

/-- Whatever page is returned holds at most `limit` elements, all of them inside
the list, and the total is the length of the list. -/
theorem paginateCase_bounds {α : Type} (s : List α) (limit offset : Int)
    (hl : 1 ≤ limit) (ho : 0 ≤ offset) (items : List α) (total : Int)
    (h : paginateCase s limit offset = some (items, total)) :
    total = s.length ∧ (items.length : Int) ≤ limit ∧
      min offset total + items.length ≤ total := by
  unfold paginateCase at h
  by_cases hge : offset ≥ (s.length : Int)
  · simp only [hge, if_true, Option.some.injEq, Prod.mk.injEq] at h
    obtain ⟨h1, h2⟩ := h
    subst h1
    subst h2
    simp only [List.length_nil, Nat.cast_zero]
    refine ⟨trivial, by omega, ?_⟩
    rw [min_eq_right hge]
    omega
  · simp only [hge, if_false, Option.map_eq_some', Prod.mk.injEq] at h
    obtain ⟨items0, hs, h1, h2⟩ := h
    subst h1
    subst h2
    obtain ⟨_, hlo, hhi, hlen⟩ := sliceExpr_length _ _ _ _ hs
    have hw := wrapInt_le_self (offset + limit) (by rw [intLimit_eq]; omega)
    refine ⟨rfl, ?_, ?_⟩
    · rw [hlen]
      split at hlen <;> split <;> omega
    · rw [hlen, min_eq_left (by omega)]
      omega

/-- The total of a returned page is the length of the list, whatever the
arguments. -/
theorem paginateCase_total {α : Type} (s : List α) (limit offset : Int)
    (items : List α) (total : Int) (h : paginateCase s limit offset = some (items, total)) :
    total = s.length := by
  unfold paginateCase at h
  by_cases hge : offset ≥ (s.length : Int)
  · simp only [hge, if_true, Option.some.injEq, Prod.mk.injEq] at h
    exact h.2.symm
  · simp only [hge, if_false, Option.map_eq_some', Prod.mk.injEq] at h
    obtain ⟨_, _, _, h2⟩ := h
    exact h2.symm

/-- The routine `SearchProvinces` returns the page of its sorted matches. -/
theorem searchProvinces_eq (L : StdLib) (ds : DataService) (search typeFilter : String)
    (limit offset : Int) :
    ds.SearchProvinces L search typeFilter limit offset
      = paginateCase (ds.matchedProvinces L search typeFilter) limit offset := by
  unfold DataService.SearchProvinces PaginateSlice
  dsimp only
  generalize paginateCase (ds.matchedProvinces L search typeFilter) limit offset = r
  rcases r with _ | ⟨items, total⟩ <;> rfl

/-- The routine `SearchWards` returns the page of its sorted matches. -/
theorem searchWards_eq (L : StdLib) (ds : DataService)
    (search typeFilter provinceCode : String) (limit offset : Int) :
    ds.SearchWards L search typeFilter provinceCode limit offset
      = paginateCase (ds.matchedWards L search typeFilter provinceCode) limit offset := by
  unfold DataService.SearchWards PaginateSlice
  dsimp only
  generalize paginateCase (ds.matchedWards L search typeFilter provinceCode) limit offset = r
  rcases r with _ | ⟨items, total⟩ <;> rfl

/-! ## Matching (C1) -/

/-- C1: under the contract of `sort.Slice`, a ward is in the matched set of
`SearchWards` iff it is in the snapshot and the search text is empty or its
lower-casing is a substring of the lower-cased name, slug, name_with_type, path
or path_with_type, the type filter is empty or equals the ward's type, and the
parent filter is empty or equals its parent code; the returned total is the
number of such entries, and a total is returned for every limit and offset whose
sum is a Go int. The same for `SearchProvinces` with the three province fields
and no parent filter. -/
theorem search_matches_iff_spec (L : StdLib) (hL : L.SortContract) (ds : DataService)
    (search typeFilter parentFilter : String) :
    (∀ w : Ward, w ∈ ds.matchedWards L search typeFilter parentFilter ↔
        w ∈ ds.wards.map Prod.snd ∧ WardMatchSpec L search typeFilter parentFilter w) ∧
    (∀ (limit offset : Int) (items : List Ward) (total : Int),
        ds.SearchWards L search typeFilter parentFilter limit offset = some (items, total) →
        total = ((ds.wards.map Prod.snd).filter
          (fun w => decide (WardMatchSpec L search typeFilter parentFilter w))).length) ∧
    (∀ limit offset : Int, 1 ≤ limit → 0 ≤ offset → offset + limit < intLimit →
        ∃ items total,
          ds.SearchWards L search typeFilter parentFilter limit offset = some (items, total)) ∧
    (∀ p : Province, p ∈ ds.matchedProvinces L search typeFilter ↔
        p ∈ ds.provinces.map Prod.snd ∧ ProvinceMatchSpec L search typeFilter p) ∧
    (∀ (limit offset : Int) (items : List Province) (total : Int),
        ds.SearchProvinces L search typeFilter limit offset = some (items, total) →
        total = ((ds.provinces.map Prod.snd).filter
          (fun p => decide (ProvinceMatchSpec L search typeFilter p))).length) ∧
    (∀ limit offset : Int, 1 ≤ limit → 0 ≤ offset → offset + limit < intLimit →
        ∃ items total,
          ds.SearchProvinces L search typeFilter limit offset = some (items, total)) := by
  have hw := matchedWards_perm L hL ds search typeFilter parentFilter
  have hp := matchedProvinces_perm L hL ds search typeFilter
  have hwf : (fun w => decide (WardMatchSpec L search typeFilter parentFilter w))
      = Ward.passes L search typeFilter parentFilter := by
    funext w
    rw [Bool.eq_iff_iff, decide_eq_true_iff, ward_passes_iff]
  have hpf : (fun p => decide (ProvinceMatchSpec L search typeFilter p))
      = Province.passes L search typeFilter := by
    funext p
    rw [Bool.eq_iff_iff, decide_eq_true_iff, province_passes_iff]
  refine ⟨?_, ?_, ?_, ?_, ?_, ?_⟩
  · intro w
    rw [hw.mem_iff, List.mem_filter, ward_passes_iff]
  · intro limit offset items total h
    rw [searchWards_eq] at h
    rw [paginateCase_total _ _ _ _ _ h, hwf, hw.length_eq]
  · intro limit offset hl ho hno
    rw [searchWards_eq, paginateCase_eq _ _ _ hl ho (Or.inr hno)]
    exact ⟨_, _, rfl⟩
  · intro p
    rw [hp.mem_iff, List.mem_filter, province_passes_iff]
  · intro limit offset items total h
    rw [searchProvinces_eq] at h
    rw [paginateCase_total _ _ _ _ _ h, hpf, hp.length_eq]
  · intro limit offset hl ho hno
    rw [searchProvinces_eq, paginateCase_eq _ _ _ hl ho (Or.inr hno)]
    exact ⟨_, _, rfl⟩

/-- C1, at the spec's scenario with insertion sort and ASCII lower-casing: the
contract holds, the query "phúc" returns the ward Phúc Xá with total 1, the
query "phuc" returns nothing with total 0, and the ward is in the matched set of
"phúc" by the equivalence. -/
theorem search_matches_iff_spec_witness :
    smallLib.SortContract ∧
    sampleStore.SearchWards smallLib "phúc" "" "" 50 0 = some ([phucXa], 1) ∧
    sampleStore.SearchWards smallLib "phuc" "" "" 50 0 = some ([], 0) ∧
    phucXa ∈ sampleStore.matchedWards smallLib "phúc" "" "" :=
  ⟨smallLib_sortContract, by decide, by decide,
    ((search_matches_iff_spec smallLib smallLib_sortContract sampleStore "phúc" "" "").1
      phucXa).mpr ⟨by decide, by decide⟩⟩

/-! ## Pages (C2, C3) -/

/-- C2 as stated fails: with limit the largest Go int (≥ 1) and offset 1 (≥ 0) on
a list of two wards, `offset + limit` overflows to a negative `end`, and the
slice expression `s[1:end]` panics, so no items and no total are returned. -/
theorem paginateSlice_overflow_panics :
    (1 : Int) ≤ 9223372036854775807 ∧ IsInt 9223372036854775807 ∧
    (0 : Int) ≤ 1 ∧ IsInt 1 ∧
    wrapInt (1 + 9223372036854775807) = -9223372036854775808 ∧
    PaginateSlice (.wards [phucXa, trucBach]) 9223372036854775807 1 = none := by
  refine ⟨by decide, ?_, by decide, ?_, by decide, by decide⟩
  · unfold IsInt intLimit
    decide
  · unfold IsInt intLimit
    decide

/-- C2, amended: for limit ≥ 1 and offset ≥ 0 such that the offset is not below
the length or `offset + limit` does not exceed the largest Go int,
`PaginateSlice` returns the length as total and as items the sub-sequence from
`offset` to `min(offset + limit, len)`, empty when `offset ≥ len`; and the total
returned by `SearchProvinces` and `SearchWards` is the number of matches, the same
for every limit and offset. -/
theorem paginateSlice_subSequence (limit offset : Int) (hl : 1 ≤ limit) (ho : 0 ≤ offset) :
    (∀ s : List Province, ((s.length : Int) ≤ offset ∨ offset + limit < intLimit) →
      PaginateSlice (.provinces s) limit offset
        = some (.provinces (subSequence s offset.toNat (min (offset + limit) s.length).toNat),
            (s.length : Int))) ∧
    (∀ s : List Ward, ((s.length : Int) ≤ offset ∨ offset + limit < intLimit) →
      PaginateSlice (.wards s) limit offset
        = some (.wards (subSequence s offset.toNat (min (offset + limit) s.length).toNat),
            (s.length : Int))) ∧
    (∀ s : List Province, (s.length : Int) ≤ offset →
      PaginateSlice (.provinces s) limit offset = some (.provinces [], (s.length : Int))) ∧
    (∀ s : List Ward, (s.length : Int) ≤ offset →
      PaginateSlice (.wards s) limit offset = some (.wards [], (s.length : Int))) ∧
    (∀ (L : StdLib) (ds : DataService) (search typeFilter : String),
      (((ds.matchedProvinces L search typeFilter).length : Int) ≤ offset ∨
        offset + limit < intLimit) →
      ∃ items, ds.SearchProvinces L search typeFilter limit offset
        = some (items, ((ds.matchedProvinces L search typeFilter).length : Int))) ∧
    (∀ (L : StdLib) (ds : DataService) (search typeFilter provinceCode : String),
      (((ds.matchedWards L search typeFilter provinceCode).length : Int) ≤ offset ∨
        offset + limit < intLimit) →
      ∃ items, ds.SearchWards L search typeFilter provinceCode limit offset
        = some (items, ((ds.matchedWards L search typeFilter provinceCode).length : Int))) ∧
    (∀ (L : StdLib) (ds : DataService) (search typeFilter : String) (limit2 offset2 : Int)
        (r r2 : List Province × Int),
      ds.SearchProvinces L search typeFilter limit offset = some r →
      ds.SearchProvinces L search typeFilter limit2 offset2 = some r2 → r.2 = r2.2) ∧
    (∀ (L : StdLib) (ds : DataService) (search typeFilter provinceCode : String)
        (limit2 offset2 : Int) (r r2 : List Ward × Int),
      ds.SearchWards L search typeFilter provinceCode limit offset = some r →
      ds.SearchWards L search typeFilter provinceCode limit2 offset2 = some r2 →
      r.2 = r2.2) := by
  refine ⟨?_, ?_, ?_, ?_, ?_, ?_, ?_, ?_⟩
  · intro s hno
    simp only [PaginateSlice, paginateCase_eq s limit offset hl ho hno, Option.map_some']
  · intro s hno
    simp only [PaginateSlice, paginateCase_eq s limit offset hl ho hno, Option.map_some']
  · intro s hge
    have hge2 : offset ≥ (s.length : Int) := hge
    simp only [PaginateSlice, paginateCase, hge2, if_true, Option.map_some']
  · intro s hge
    have hge2 : offset ≥ (s.length : Int) := hge
    simp only [PaginateSlice, paginateCase, hge2, if_true, Option.map_some']
  · intro L ds search typeFilter hno
    rw [searchProvinces_eq, paginateCase_eq _ limit offset hl ho hno]
    exact ⟨_, rfl⟩
  · intro L ds search typeFilter provinceCode hno
    rw [searchWards_eq, paginateCase_eq _ limit offset hl ho hno]
    exact ⟨_, rfl⟩
  · intro L ds search typeFilter limit2 offset2 r r2 h h2
    rw [searchProvinces_eq] at h h2
    rw [paginateCase_total _ _ _ r.1 r.2 h, paginateCase_total _ _ _ r2.1 r2.2 h2]
  · intro L ds search typeFilter provinceCode limit2 offset2 r r2 h h2
    rw [searchWards_eq] at h h2
    rw [paginateCase_total _ _ _ r.1 r.2 h, paginateCase_total _ _ _ r2.1 r2.2 h2]

/-- C2, amended, at limit 1 and offset 1 on the two wards: the page is the second
ward and the total is 2. -/
theorem paginateSlice_subSequence_witness :
    (1 : Int) ≤ 1 ∧ (0 : Int) ≤ 1 ∧
    PaginateSlice (.wards [phucXa, trucBach]) 1 1 = some (.wards [trucBach], 2) :=
  ⟨by decide, by decide,
    ((paginateSlice_subSequence 1 1 (by decide) (by decide)).2.1 [phucXa, trucBach]
      (Or.inr (by unfold intLimit; decide))).trans (by decide)⟩

/-- C3 as stated fails: on the snapshot with one ward, `SearchWards` with limit 50
and offset 5 returns no items and total 1, and `5 + 0 ≤ 1` does not hold. -/
theorem searchWards_offset_past_total :
    sampleStore.SearchWards smallLib "" "" "" 50 5 = some ([], 1) ∧
    ¬ ((5 : Int) + (([] : List Ward).length : Int) ≤ 1) := by
  refine ⟨by decide, by decide⟩

/-- C3, amended: for limit ≥ 1 and offset ≥ 0, whatever `SearchWards` and
`SearchProvinces` return satisfies `len(items) ≤ limit`, and
`offset + len(items) ≤ total` when `offset ≤ total`, and `items` is empty when
`offset > total`; and they do return when `offset + limit` does not exceed the
largest Go int. -/
theorem search_page_bounds (L : StdLib) (ds : DataService)
    (search typeFilter provinceCode : String) (limit offset : Int)
    (hl : 1 ≤ limit) (ho : 0 ≤ offset) :
    (∀ (items : List Ward) (total : Int),
      ds.SearchWards L search typeFilter provinceCode limit offset = some (items, total) →
      (items.length : Int) ≤ limit ∧ (offset ≤ total → offset + items.length ≤ total) ∧
        (total < offset → items = [])) ∧
    (offset + limit < intLimit →
      ∃ r, ds.SearchWards L search typeFilter provinceCode limit offset = some r) ∧
    (∀ (items : List Province) (total : Int),
      ds.SearchProvinces L search typeFilter limit offset = some (items, total) →
      (items.length : Int) ≤ limit ∧ (offset ≤ total → offset + items.length ≤ total) ∧
        (total < offset → items = [])) ∧
    (offset + limit < intLimit →
      ∃ r, ds.SearchProvinces L search typeFilter limit offset = some r) := by
  refine ⟨?_, ?_, ?_, ?_⟩
  · intro items total h
    rw [searchWards_eq] at h
    obtain ⟨_, h2, h3⟩ := paginateCase_bounds _ _ _ hl ho _ _ h
    refine ⟨h2, ?_, ?_⟩
    · intro hle
      rwa [min_eq_left hle] at h3
    · intro hlt
      rw [min_eq_right (le_of_lt hlt)] at h3
      have h0 : items.length = 0 := by omega
      exact List.length_eq_zero.mp h0
  · intro hno
    rw [searchWards_eq, paginateCase_eq _ _ _ hl ho (Or.inr hno)]
    exact ⟨_, rfl⟩
  · intro items total h
    rw [searchProvinces_eq] at h
    obtain ⟨_, h2, h3⟩ := paginateCase_bounds _ _ _ hl ho _ _ h
    refine ⟨h2, ?_, ?_⟩
    · intro hle
      rwa [min_eq_left hle] at h3
    · intro hlt
      rw [min_eq_right (le_of_lt hlt)] at h3
      have h0 : items.length = 0 := by omega
      exact List.length_eq_zero.mp h0
  · intro hno
    rw [searchProvinces_eq, paginateCase_eq _ _ _ hl ho (Or.inr hno)]
    exact ⟨_, rfl⟩

/-- C3, amended, at the snapshot with one ward, limit 50 and offset 0: one item,
`1 ≤ 50` and `0 + 1 ≤ 1`. -/
theorem search_page_bounds_witness :
    (1 : Int) ≤ 50 ∧ (0 : Int) ≤ 0 ∧
    sampleStore.SearchWards smallLib "" "" "" 50 0 = some ([phucXa], 1) ∧
    (([phucXa].length : Int) ≤ 50 ∧ ((0 : Int) ≤ 1 → (0 : Int) + [phucXa].length ≤ 1) ∧
      ((1 : Int) < 0 → [phucXa] = [])) :=
  ⟨by decide, by decide, by decide,
    (search_page_bounds smallLib sampleStore "" "" "" 50 0 (by decide) (by decide)).1
      [phucXa] 1 (by decide)⟩

/-! ## Order of the matched set (C4, C5) -/

/-- Two rearrangements of one list, both ascending in a string key, carry the same
sequence of keys, and are equal when the keys are pairwise distinct. -/
theorem sorted_perm_unique {α : Type} (key : α → String) (l1 l2 : List α)
    (hp : l1.Perm l2)
    (h1 : l1.Pairwise (fun a b => strLess (key b) (key a) = false))
    (h2 : l2.Pairwise (fun a b => strLess (key b) (key a) = false)) :
    l1.map key = l2.map key ∧ ((l1.map key).Nodup → l1 = l2) := by
  have k1 : l1.Pairwise (fun a b => key a ≤ key b) :=
    h1.imp (fun h => (strLess_eq_false_iff _ _).mp h)
  have k2 : l2.Pairwise (fun a b => key a ≤ key b) :=
    h2.imp (fun h => (strLess_eq_false_iff _ _).mp h)
  constructor
  · exact List.eq_of_perm_of_sorted (hp.map key) (List.pairwise_map.mpr k1)
      (List.pairwise_map.mpr k2)
  · intro hnd
    have hnd2 : (l2.map key).Nodup := (hp.map key).nodup_iff.mp hnd
    have n1 : l1.Pairwise (fun a b => key a ≠ key b) := List.pairwise_map.mp hnd
    have n2 : l2.Pairwise (fun a b => key a ≠ key b) := List.pairwise_map.mp hnd2
    have s1 : l1.Pairwise (fun a b => key a < key b) :=
      (k1.and n1).imp (fun h => lt_of_le_of_ne h.1 h.2)
    have s2 : l2.Pairwise (fun a b => key a < key b) :=
      (k2.and n2).imp (fun h => lt_of_le_of_ne h.1 h.2)
    haveI : IsAntisymm α (fun a b => key a < key b) :=
      ⟨fun a b hab hba => absurd hab (lt_asymm hba)⟩
    exact List.eq_of_perm_of_sorted hp s1 s2

/-- Pagination commutes with mapping a function over the elements. -/
theorem paginateCase_map {α β : Type} (f : α → β) (s : List α) (limit offset : Int) :
    (paginateCase s limit offset).map (fun r => (r.1.map f, r.2))
      = paginateCase (s.map f) limit offset := by
  unfold paginateCase sliceExpr
  simp only [List.length_map]
  by_cases hge : offset ≥ (s.length : Int)
  · simp only [hge, if_true, Option.map_some', List.map_nil]
  · simp only [hge, if_false]
    split <;> split <;>
      simp only [Option.map_some', Option.map_none', List.map_take, List.map_drop]

/-- The sorted matches of two traversals of one wards map. -/
theorem matchedWards_traversals (L : StdLib) (hL : L.SortContract) (ds ds2 : DataService)
    (hw : ds2.wards.Perm ds.wards) (search typeFilter provinceCode : String) :
    (ds.matchedWards L search typeFilter provinceCode).map Ward.Name
        = (ds2.matchedWards L search typeFilter provinceCode).map Ward.Name ∧
    (((ds.matchedWards L search typeFilter provinceCode).map Ward.Name).Nodup →
      ds.matchedWards L search typeFilter provinceCode
        = ds2.matchedWards L search typeFilter provinceCode) := by
  have p1 := matchedWards_perm L hL ds search typeFilter provinceCode
  have p2 := matchedWards_perm L hL ds2 search typeFilter provinceCode
  have pm : ((ds2.wards.map Prod.snd).filter (Ward.passes L search typeFilter provinceCode)).Perm
      ((ds.wards.map Prod.snd).filter (Ward.passes L search typeFilter provinceCode)) :=
    (hw.map Prod.snd).filter _
  exact sorted_perm_unique Ward.Name _ _ (p1.trans (pm.symm.trans p2.symm))
    (hL Ward Ward.Name _).2 (hL Ward Ward.Name _).2

/-- The sorted matches of two traversals of one provinces map. -/
theorem matchedProvinces_traversals (L : StdLib) (hL : L.SortContract)
    (ds ds2 : DataService) (hp : ds2.provinces.Perm ds.provinces)
    (search typeFilter : String) :
    (ds.matchedProvinces L search typeFilter).map Province.Name
        = (ds2.matchedProvinces L search typeFilter).map Province.Name ∧
    (((ds.matchedProvinces L search typeFilter).map Province.Name).Nodup →
      ds.matchedProvinces L search typeFilter = ds2.matchedProvinces L search typeFilter) := by
  have p1 := matchedProvinces_perm L hL ds search typeFilter
  have p2 := matchedProvinces_perm L hL ds2 search typeFilter
  have pm : ((ds2.provinces.map Prod.snd).filter (Province.passes L search typeFilter)).Perm
      ((ds.provinces.map Prod.snd).filter (Province.passes L search typeFilter)) :=
    (hp.map Prod.snd).filter _
  exact sorted_perm_unique Province.Name _ _ (p1.trans (pm.symm.trans p2.symm))
    (hL Province Province.Name _).2 (hL Province Province.Name _).2

/-- C4 as stated fails twice. The matched provinces come out as An Giang, Hà Nội,
ascending in `Name`, while the display name "Thành phố Hà Nội" is less than
"Tỉnh An Giang"; and the two wards named Tân Thành come out in the order in
which the map is traversed. -/
theorem matched_order_not_display_name :
    twoStore.matchedProvinces smallLib "" "" = [anGiang, thanhPhoHaNoi] ∧
    strLess thanhPhoHaNoi.NameWithType anGiang.NameWithType = true ∧
    twoStoreSwapped.wards.Perm twoStore.wards ∧
    twoStore.matchedWards smallLib "" "" "" = [tanThanhA, tanThanhB] ∧
    twoStoreSwapped.matchedWards smallLib "" "" "" = [tanThanhB, tanThanhA] ∧
    tanThanhA ≠ tanThanhB :=
  ⟨by decide, by decide, List.Perm.swap _ _ _, by decide, by decide, by decide⟩

/-- C4, amended: under the contract of `sort.Slice`, the matched set that
`SearchProvinces` and `SearchWards` paginate is ascending in `Name` under Go's
string comparison (no element's name is less than the name of an element before
it); for two traversal orders of the same maps the sequence of names is the
same, and the matched sets are equal when the matched names are pairwise
distinct. -/
theorem matched_sorted_by_name (L : StdLib) (hL : L.SortContract) (ds ds2 : DataService)
    (hp : ds2.provinces.Perm ds.provinces) (hw : ds2.wards.Perm ds.wards)
    (search typeFilter provinceCode : String) :
    (ds.matchedProvinces L search typeFilter).Pairwise
      (fun a b => strLess b.Name a.Name = false) ∧
    (ds.matchedWards L search typeFilter provinceCode).Pairwise
      (fun a b => strLess b.Name a.Name = false) ∧
    (ds.matchedProvinces L search typeFilter).map Province.Name
      = (ds2.matchedProvinces L search typeFilter).map Province.Name ∧
    (((ds.matchedProvinces L search typeFilter).map Province.Name).Nodup →
      ds.matchedProvinces L search typeFilter = ds2.matchedProvinces L search typeFilter) ∧
    (ds.matchedWards L search typeFilter provinceCode).map Ward.Name
      = (ds2.matchedWards L search typeFilter provinceCode).map Ward.Name ∧
    (((ds.matchedWards L search typeFilter provinceCode).map Ward.Name).Nodup →
      ds.matchedWards L search typeFilter provinceCode
        = ds2.matchedWards L search typeFilter provinceCode) :=
  ⟨(hL Province Province.Name _).2, (hL Ward Ward.Name _).2,
    (matchedProvinces_traversals L hL ds ds2 hp search typeFilter).1,
    (matchedProvinces_traversals L hL ds ds2 hp search typeFilter).2,
    (matchedWards_traversals L hL ds ds2 hw search typeFilter provinceCode).1,
    (matchedWards_traversals L hL ds ds2 hw search typeFilter provinceCode).2⟩

/-- C4, amended, at the two traversal orders of the sample maps: the matched
provinces, whose names differ, are the same list for both orders. -/
theorem matched_sorted_by_name_witness :
    smallLib.SortContract ∧ twoStoreSwapped.provinces.Perm twoStore.provinces ∧
    twoStoreSwapped.wards.Perm twoStore.wards ∧
    twoStore.matchedProvinces smallLib "" "" = twoStoreSwapped.matchedProvinces smallLib "" "" :=
  ⟨smallLib_sortContract, List.Perm.swap _ _ _, List.Perm.swap _ _ _,
    (matched_sorted_by_name smallLib smallLib_sortContract twoStore twoStoreSwapped
      (List.Perm.swap _ _ _) (List.Perm.swap _ _ _) "" "" "").2.2.2.1 (by decide)⟩

/-- C5 as stated fails: the same maps traversed in two orders give, for the same
arguments, the two wards named Tân Thành in two orders, and with limit 1 two
different first pages. -/
theorem searchWards_depends_on_traversal :
    twoStoreSwapped.provinces.Perm twoStore.provinces ∧
    twoStoreSwapped.wards.Perm twoStore.wards ∧
    twoStore.SearchWards smallLib "tân" "" "" 50 0 = some ([tanThanhA, tanThanhB], 2) ∧
    twoStoreSwapped.SearchWards smallLib "tân" "" "" 50 0
      = some ([tanThanhB, tanThanhA], 2) ∧
    twoStore.SearchWards smallLib "tân" "" "" 1 0 = some ([tanThanhA], 2) ∧
    twoStoreSwapped.SearchWards smallLib "tân" "" "" 1 0 = some ([tanThanhB], 2) ∧
    tanThanhA ≠ tanThanhB :=
  ⟨List.Perm.swap _ _ _, List.Perm.swap _ _ _, by decide, by decide, by decide, by decide,
    by decide⟩

/-- C5, amended: under the contract of `sort.Slice`, two calls of `SearchWards`
(of `SearchProvinces`) with the same arguments on the same maps, traversed in any
two orders, both panic or both return, with the same total and the same sequence
of names; they return the same items in the same order when the matched names
are pairwise distinct. -/
theorem search_deterministic_up_to_ties (L : StdLib) (hL : L.SortContract)
    (ds ds2 : DataService)
    (hp : ds2.provinces.Perm ds.provinces) (hw : ds2.wards.Perm ds.wards)
    (search typeFilter provinceCode : String) (limit offset : Int) :
    (ds.SearchWards L search typeFilter provinceCode limit offset).map
        (fun r => (r.1.map Ward.Name, r.2))
      = (ds2.SearchWards L search typeFilter provinceCode limit offset).map
        (fun r => (r.1.map Ward.Name, r.2)) ∧
    (((ds.matchedWards L search typeFilter provinceCode).map Ward.Name).Nodup →
      ds.SearchWards L search typeFilter provinceCode limit offset
        = ds2.SearchWards L search typeFilter provinceCode limit offset) ∧
    (ds.SearchProvinces L search typeFilter limit offset).map
        (fun r => (r.1.map Province.Name, r.2))
      = (ds2.SearchProvinces L search typeFilter limit offset).map
        (fun r => (r.1.map Province.Name, r.2)) ∧
    (((ds.matchedProvinces L search typeFilter).map Province.Name).Nodup →
      ds.SearchProvinces L search typeFilter limit offset
        = ds2.SearchProvinces L search typeFilter limit offset) := by
  have tw := matchedWards_traversals L hL ds ds2 hw search typeFilter provinceCode
  have tp := matchedProvinces_traversals L hL ds ds2 hp search typeFilter
  refine ⟨?_, ?_, ?_, ?_⟩
  · rw [searchWards_eq, searchWards_eq, paginateCase_map, paginateCase_map, tw.1]
  · intro hnd
    rw [searchWards_eq, searchWards_eq, tw.2 hnd]
  · rw [searchProvinces_eq, searchProvinces_eq, paginateCase_map, paginateCase_map, tp.1]
  · intro hnd
    rw [searchProvinces_eq, searchProvinces_eq, tp.2 hnd]

/-- C5, amended, at the two traversal orders of the sample maps: the searches for
the provinces, whose names differ, return the same page. -/
theorem search_deterministic_up_to_ties_witness :
    smallLib.SortContract ∧ twoStoreSwapped.provinces.Perm twoStore.provinces ∧
    twoStoreSwapped.wards.Perm twoStore.wards ∧
    twoStore.SearchProvinces smallLib "" "" 50 0
      = twoStoreSwapped.SearchProvinces smallLib "" "" 50 0 ∧
    twoStore.SearchProvinces smallLib "" "" 50 0 = some ([anGiang, thanhPhoHaNoi], 2) :=
  ⟨smallLib_sortContract, List.Perm.swap _ _ _, List.Perm.swap _ _ _,
    (search_deterministic_up_to_ties smallLib smallLib_sortContract twoStore twoStoreSwapped
      (List.Perm.swap _ _ _) (List.Perm.swap _ _ _) "" "" "" 50 0).2.2.2 (by decide),
    by decide⟩

/-! ## Lookups (C6, C7, C8) -/

/-- A map index finds nothing exactly when the key is not a key of the map. -/
theorem mapGet_eq_none_iff {β : Type} (m : List (String × β)) (key : String) :
    mapGet m key = none ↔ key ∉ m.map Prod.fst := by
  induction m with
  | nil => simp [mapGet]
  | cons e m ih =>
    obtain ⟨k, v⟩ := e
    by_cases h : k = key
    · simp [mapGet, h]
    · have h2 : ¬ key = k := fun hk => h hk.symm
      simp [mapGet, h, h2, ih]

/-- A map index finds a value exactly when the key is a key of the map. -/
theorem mapGet_isSome_iff {β : Type} (m : List (String × β)) (key : String) :
    (∃ v, mapGet m key = some v) ↔ key ∈ m.map Prod.fst := by
  rw [← not_iff_not, ← mapGet_eq_none_iff]
  cases mapGet m key <;> simp

/-- What a map index finds is an entry of the map. -/
theorem mapGet_mem {β : Type} (m : List (String × β)) (key : String) (v : β)
    (h : mapGet m key = some v) : (key, v) ∈ m := by
  induction m with
  | nil => simp [mapGet] at h
  | cons e m ih =>
    obtain ⟨k, v2⟩ := e
    by_cases hk : k = key
    · simp only [mapGet, hk, if_true, Option.some.injEq] at h
      simp [hk, h]
    · simp only [mapGet, hk, if_false] at h
      exact List.mem_cons_of_mem _ (ih h)

/-- In a map, whose keys are distinct, the index of a key finds its entry. -/
theorem mapGet_of_mem {β : Type} (m : List (String × β)) (hnd : NodupKeys m)
    (key : String) (v : β) (h : (key, v) ∈ m) : mapGet m key = some v := by
  induction m with
  | nil => simp at h
  | cons e m ih =>
    obtain ⟨k, v2⟩ := e
    unfold NodupKeys at hnd
    rw [List.map_cons, List.nodup_cons] at hnd
    rcases List.mem_cons.mp h with h1 | h1
    · cases h1
      simp [mapGet]
    · have hk : k ≠ key := by
        intro hk
        apply hnd.1
        rw [hk]
        exact List.mem_map.mpr ⟨(key, v), h1, rfl⟩
      simp only [mapGet, hk, if_false]
      exact ih hnd.2 h1

/-- C6: `ValidateAddress(p, w)` returns `(ward, true)` iff `p` is a key of the
provinces map, `w` is a key of the wards map, `ward` is the ward stored under `w`
and its parent code is `p`; when no ward meets this it returns `(nil, false)`; it
has no error result. In the spec's scenario `("01", "00001")` returns the ward
and `("02", "00001")` returns absent. -/
theorem validateAddress_iff (ds : DataService) (p w : String) :
    (∀ ward : Ward, ds.ValidateAddress p w = (some ward, true) ↔
      p ∈ ds.provinces.map Prod.fst ∧ w ∈ ds.wards.map Prod.fst ∧
        mapGet ds.wards w = some ward ∧ ward.ParentCode = p) ∧
    ((¬ ∃ ward : Ward, p ∈ ds.provinces.map Prod.fst ∧ w ∈ ds.wards.map Prod.fst ∧
        mapGet ds.wards w = some ward ∧ ward.ParentCode = p) →
      ds.ValidateAddress p w = (none, false)) ∧
    (NodupKeys ds.wards → ∀ ward : Ward, ds.ValidateAddress p w = (some ward, true) →
      (w, ward) ∈ ds.wards) ∧
    sampleStore.ValidateAddress "01" "00001" = (some phucXa, true) ∧
    sampleStore.ValidateAddress "02" "00001" = (none, false) := by
  have key : ∀ ward : Ward, ds.ValidateAddress p w = (some ward, true) ↔
      p ∈ ds.provinces.map Prod.fst ∧ w ∈ ds.wards.map Prod.fst ∧
        mapGet ds.wards w = some ward ∧ ward.ParentCode = p := by
    intro ward
    rw [← mapGet_isSome_iff, ← mapGet_isSome_iff]
    unfold DataService.ValidateAddress
    cases hp : mapGet ds.provinces p with
    | none => simp
    | some prov =>
      cases hw : mapGet ds.wards w with
      | none => simp
      | some ward2 =>
        by_cases hpar : ward2.ParentCode = p
        · simp [hpar]
          intro h
          rw [← h]
          exact hpar
        · simp [hpar]
          intro h
          rw [← h]
          exact hpar
  refine ⟨key, ?_, ?_, by decide, by decide⟩
  · intro hnone
    unfold DataService.ValidateAddress
    cases hp : mapGet ds.provinces p with
    | none => rfl
    | some prov =>
      cases hw : mapGet ds.wards w with
      | none => rfl
      | some ward2 =>
        by_cases hpar : ward2.ParentCode = p
        · exfalso
          apply hnone
          exact ⟨ward2, (mapGet_isSome_iff _ _).mp ⟨prov, hp⟩,
            (mapGet_isSome_iff _ _).mp ⟨ward2, hw⟩, hw, hpar⟩
        · simp [hpar]
  · intro _ ward h
    exact mapGet_mem _ _ _ ((key ward).mp h).2.2.1

/-- C7: `GetProvince(c)` returns the record stored under `c` and no error when
`c` is a key of the provinces map, and no record and the not-found error when
it is not; in a map the record stored under `c` is the one entry with key `c`.
The same for `GetWard` over the wards map. -/
theorem getByCode_found_or_notFound (ds : DataService) (c : String) :
    (c ∈ ds.provinces.map Prod.fst →
      ∃ p, mapGet ds.provinces c = some p ∧ ds.GetProvince c = (some p, none)) ∧
    (NodupKeys ds.provinces → ∀ p, (c, p) ∈ ds.provinces →
      ds.GetProvince c = (some p, none)) ∧
    (c ∉ ds.provinces.map Prod.fst →
      ds.GetProvince c = (none, some ("province with code " ++ c ++ " not found"))) ∧
    (c ∈ ds.wards.map Prod.fst →
      ∃ w, mapGet ds.wards c = some w ∧ ds.GetWard c = (some w, none)) ∧
    (NodupKeys ds.wards → ∀ w, (c, w) ∈ ds.wards → ds.GetWard c = (some w, none)) ∧
    (c ∉ ds.wards.map Prod.fst →
      ds.GetWard c = (none, some ("ward with code " ++ c ++ " not found"))) := by
  refine ⟨?_, ?_, ?_, ?_, ?_, ?_⟩
  · intro h
    obtain ⟨p, hp⟩ := (mapGet_isSome_iff _ _).mpr h
    exact ⟨p, hp, by simp [DataService.GetProvince, hp]⟩
  · intro hnd p hmem
    simp [DataService.GetProvince, mapGet_of_mem _ hnd _ _ hmem]
  · intro h
    simp [DataService.GetProvince, (mapGet_eq_none_iff _ _).mpr h]
  · intro h
    obtain ⟨w, hw⟩ := (mapGet_isSome_iff _ _).mpr h
    exact ⟨w, hw, by simp [DataService.GetWard, hw]⟩
  · intro hnd w hmem
    simp [DataService.GetWard, mapGet_of_mem _ hnd _ _ hmem]
  · intro h
    simp [DataService.GetWard, (mapGet_eq_none_iff _ _).mpr h]

/-- C8 fails on the code: for a ward that is present and whose parent code is not
a key of the provinces map, with data loaded, `GetWardWithProvince` returns the
ward and no province, but with a non-nil error, and the handler, which turns
every error into 404 "Ward not found", does not answer with the ward. -/
theorem getWardWithProvince_dangling_fails :
    "00001" ∈ danglingStore.wards.map Prod.fst ∧
    phucXa.ParentCode ∉ danglingStore.provinces.map Prod.fst ∧
    danglingStore.IsDataLoaded = true ∧
    danglingStore.GetWardWithProvince "00001"
      = (some phucXa, none, some "province with code 01 not found") ∧
    APIHandler.GetWard danglingStore "00001"
      = some { status := 404, success := false, message := "Ward not found", data := none } :=
  ⟨by decide, by decide, by decide, by decide, by decide⟩

/-- The two cases of `GetWardWithProvince` without a dangling reference: if `w`
is not a key of the wards map it fails with not-found and returns neither ward
nor province; if the ward and its province resolve it returns both with no
error, and the handler of GET /wards/:code (data loaded, code not empty) answers
200 with the ward and the four fields of the province. -/
theorem getWardWithProvince_resolved (ds : DataService) (w : String) :
    (w ∉ ds.wards.map Prod.fst →
      ds.GetWardWithProvince w
        = (none, none, some ("ward with code " ++ w ++ " not found"))) ∧
    (∀ (ward : Ward) (province : Province), mapGet ds.wards w = some ward →
      mapGet ds.provinces ward.ParentCode = some province →
      ds.GetWardWithProvince w = (some ward, some province, none) ∧
        (ds.IsDataLoaded = true → w ≠ "" →
          APIHandler.GetWard ds w
            = some { status := 200, success := true, message := "",
                     data := some (ward, some
                       { code := province.Code, name := province.Name,
                         name_with_type := province.NameWithType,
                         type_ := province.Type_ }) })) := by
  refine ⟨?_, ?_⟩
  · intro h
    simp [DataService.GetWardWithProvince, (mapGet_eq_none_iff _ _).mpr h]
  · intro ward province hw hp
    have hres : ds.GetWardWithProvince w = (some ward, some province, none) := by
      simp [DataService.GetWardWithProvince, hw, hp]
    refine ⟨hres, ?_⟩
    intro hl hne
    simp [APIHandler.GetWard, hl, hne, hres]

/-! ## Loading (C9, C10) -/

/-- The routine `LoadData` returns an error exactly when the load fails. -/
theorem loadData_error_iff (H : Host) (ds : DataService) :
    (∃ err, (ds.LoadData H).1 = some err) ↔ loadFails H ds := by
  unfold loadFails DataService.LoadData
  rcases h1 : H.ReadFile (H.Join ds.dataPath "province.json") with ⟨d1, _ | e1⟩
  · rcases h2 : UnmarshalProvinceData H d1 with ⟨m1, _ | e2⟩
    · rcases h3 : H.ReadFile (H.Join ds.dataPath "ward.json") with ⟨d2, _ | e3⟩
      · rcases h4 : UnmarshalWardData H d2 with ⟨m2, _ | e4⟩
        · simp [h1, h2, h3, h4]
        · simp [h1, h2, h3, h4]
      · simp [h1, h2, h3]
    · simp [h1, h2]
  · simp [h1]

/-- The routine `LoadData` leaves the store as it was when it returns an error. -/
theorem loadData_error_keeps (H : Host) (ds : DataService) (err : String)
    (h : (ds.LoadData H).1 = some err) : (ds.LoadData H).2 = ds := by
  unfold DataService.LoadData at h ⊢
  rcases h1 : H.ReadFile (H.Join ds.dataPath "province.json") with ⟨d1, _ | e1⟩
  · rcases h2 : UnmarshalProvinceData H d1 with ⟨m1, _ | e2⟩
    · rcases h3 : H.ReadFile (H.Join ds.dataPath "ward.json") with ⟨d2, _ | e3⟩
      · rcases h4 : UnmarshalWardData H d2 with ⟨m2, _ | e4⟩
        · simp [h1, h2, h3, h4] at h
        · simp [h1, h2, h3, h4]
      · simp [h1, h2, h3]
    · simp [h1, h2]
  · simp [h1]

/-- C9: if reading or parsing of either province.json or ward.json fails, also
when province.json parses and ward.json does not, `LoadData` returns an error and
the store, with its provinces map, wards map and load time, is what it was
before the call. -/
theorem loadData_failure_keeps_store (H : Host) (ds : DataService)
    (hfail : (H.ReadFile (H.Join ds.dataPath "province.json")).2 ≠ none ∨
      (UnmarshalProvinceData H (H.ReadFile (H.Join ds.dataPath "province.json")).1).2 ≠ none ∨
      (H.ReadFile (H.Join ds.dataPath "ward.json")).2 ≠ none ∨
      (UnmarshalWardData H (H.ReadFile (H.Join ds.dataPath "ward.json")).1).2 ≠ none) :
    (∃ err, (ds.LoadData H).1 = some err) ∧ (ds.LoadData H).2 = ds ∧
      (ds.LoadData H).2.provinces = ds.provinces ∧ (ds.LoadData H).2.wards = ds.wards ∧
      (ds.LoadData H).2.loadTime = ds.loadTime := by
  obtain ⟨err, herr⟩ := (loadData_error_iff H ds).mpr hfail
  have hkeep := loadData_error_keeps H ds err herr
  exact ⟨⟨err, herr⟩, hkeep, by rw [hkeep], by rw [hkeep], by rw [hkeep]⟩

/-- C9, at a loaded store and a host whose province.json parses and whose
ward.json does not: the parse of ward.json fails, `LoadData` reports it and the
store is unchanged. -/
theorem loadData_failure_keeps_store_witness :
    (UnmarshalProvinceData truncatedWardHost
      (truncatedWardHost.ReadFile
        (truncatedWardHost.Join sampleStore.dataPath "province.json")).1).2 = none ∧
    (UnmarshalWardData truncatedWardHost
      (truncatedWardHost.ReadFile
        (truncatedWardHost.Join sampleStore.dataPath "ward.json")).1).2 ≠ none ∧
    sampleStore.LoadData truncatedWardHost
      = (some "failed to parse ward.json: unexpected end of JSON input", sampleStore) ∧
    (sampleStore.LoadData truncatedWardHost).2 = sampleStore :=
  ⟨by decide, by decide, by decide,
    (loadData_failure_keeps_store truncatedWardHost sampleStore
      (Or.inr (Or.inr (Or.inr (by decide))))).2.1⟩

/-- The routine `LoadData` never changes the configured path. -/
theorem loadData_dataPath (H : Host) (ds : DataService) :
    (ds.LoadData H).2.dataPath = ds.dataPath := by
  unfold DataService.LoadData
  rcases h1 : H.ReadFile (H.Join ds.dataPath "province.json") with ⟨d1, _ | e1⟩
  · rcases h2 : UnmarshalProvinceData H d1 with ⟨m1, _ | e2⟩
    · rcases h3 : H.ReadFile (H.Join ds.dataPath "ward.json") with ⟨d2, _ | e3⟩
      · rcases h4 : UnmarshalWardData H d2 with ⟨m2, _ | e4⟩
        · simp [h1, h2, h3, h4]
        · simp [h1, h2, h3, h4]
      · simp [h1, h2, h3]
    · simp [h1, h2]
  · simp [h1]

/-- When both files are read and parsed without error, `LoadData` stores the two
parsed maps and the time, and keeps the path. -/
theorem loadData_success (H : Host) (ds : DataService) (provinceData wardData : Bytes)
    (provinces : ProvinceData) (wards : WardData)
    (hrp : H.ReadFile (H.Join ds.dataPath "province.json") = (provinceData, none))
    (hpp : H.jsonUnmarshalProvinces provinceData = (provinces, none))
    (hrw : H.ReadFile (H.Join ds.dataPath "ward.json") = (wardData, none))
    (hpw : H.jsonUnmarshalWards wardData = (wards, none)) :
    ds.LoadData H
      = (none, { provinces := provinces, wards := wards, loadTime := H.Now,
                 dataPath := ds.dataPath }) := by
  unfold DataService.LoadData UnmarshalProvinceData UnmarshalWardData
  simp only [hrp, hpp, hrw, hpw]

/-- Two loads from the same files, parsed the same way, leave the same maps: if a
first `LoadData` succeeded, a second one on its result succeeds and stores
equal provinces and wards maps, the same path and the later time. -/
theorem loadData_twice_same_maps (H H2 : Host) (ds ds1 : DataService)
    (hJoin : H2.Join = H.Join) (hRead : H2.ReadFile = H.ReadFile)
    (hP : H2.jsonUnmarshalProvinces = H.jsonUnmarshalProvinces)
    (hW : H2.jsonUnmarshalWards = H.jsonUnmarshalWards)
    (hload : ds.LoadData H = (none, ds1)) :
    ∃ ds2, ds1.LoadData H2 = (none, ds2) ∧ ds2.provinces = ds1.provinces ∧
      ds2.wards = ds1.wards ∧ ds2.provinces.length = ds1.provinces.length ∧
      ds2.wards.length = ds1.wards.length ∧ ds2.dataPath = ds1.dataPath ∧
      ds2.loadTime = H2.Now := by
  unfold DataService.LoadData at hload ⊢
  unfold UnmarshalProvinceData UnmarshalWardData at hload ⊢
  rw [hJoin, hRead, hP, hW]
  rcases h1 : H.ReadFile (H.Join ds.dataPath "province.json") with ⟨d1, _ | e1⟩
  · rcases h2 : H.jsonUnmarshalProvinces d1 with ⟨m1, _ | e2⟩
    · rcases h3 : H.ReadFile (H.Join ds.dataPath "ward.json") with ⟨d2, _ | e3⟩
      · rcases h4 : H.jsonUnmarshalWards d2 with ⟨m2, _ | e4⟩
        · simp only [h1, h2, h3, h4, Prod.mk.injEq, true_and] at hload
          subst hload
          simp [h1, h2, h3, h4]
        · simp [h1, h2, h3, h4] at hload
      · simp [h1, h2, h3] at hload
    · simp [h1, h2] at hload
  · simp [h1] at hload

/-- C10: for every host and store `ReloadData` is `LoadData` on the path the store
was configured with, which it keeps: it reads and parses both files again,
stores the two parsed maps and the time when all succeeds, and on any failure
returns an error and leaves the store as it was. Hence a `ReloadData` after a
successful `LoadData`, finding the same files parsed the same way, succeeds and
leaves the same provinces and wards maps (same counts, codes and field values);
only the load time is that of the reload. -/
theorem reloadData_round_trip (H : Host) (ds : DataService) :
    ds.ReloadData H = ds.LoadData H ∧
    (ds.ReloadData H).2.dataPath = ds.dataPath ∧
    (∀ (provinceData wardData : Bytes) (provinces : ProvinceData) (wards : WardData),
      H.ReadFile (H.Join ds.dataPath "province.json") = (provinceData, none) →
      H.jsonUnmarshalProvinces provinceData = (provinces, none) →
      H.ReadFile (H.Join ds.dataPath "ward.json") = (wardData, none) →
      H.jsonUnmarshalWards wardData = (wards, none) →
      ds.ReloadData H
        = (none, { provinces := provinces, wards := wards, loadTime := H.Now,
                   dataPath := ds.dataPath })) ∧
    (((H.ReadFile (H.Join ds.dataPath "province.json")).2 ≠ none ∨
      (UnmarshalProvinceData H (H.ReadFile (H.Join ds.dataPath "province.json")).1).2 ≠ none ∨
      (H.ReadFile (H.Join ds.dataPath "ward.json")).2 ≠ none ∨
      (UnmarshalWardData H (H.ReadFile (H.Join ds.dataPath "ward.json")).1).2 ≠ none) →
      (∃ err, (ds.ReloadData H).1 = some err) ∧ (ds.ReloadData H).2 = ds) ∧
    (∀ (H0 : Host) (ds0 : DataService),
      H.Join = H0.Join → H.ReadFile = H0.ReadFile →
      H.jsonUnmarshalProvinces = H0.jsonUnmarshalProvinces →
      H.jsonUnmarshalWards = H0.jsonUnmarshalWards →
      ds0.LoadData H0 = (none, ds) →
      ∃ ds2, ds.ReloadData H = (none, ds2) ∧ ds2.provinces = ds.provinces ∧
        ds2.wards = ds.wards ∧ ds2.provinces.length = ds.provinces.length ∧
        ds2.wards.length = ds.wards.length ∧ ds2.dataPath = ds.dataPath ∧
        ds2.loadTime = H.Now) := by
  refine ⟨rfl, loadData_dataPath H ds, ?_, ?_, ?_⟩
  · intro provinceData wardData provinces wards hrp hpp hrw hpw
    exact loadData_success H ds provinceData wardData provinces wards hrp hpp hrw hpw
  · intro hfail
    obtain ⟨err, herr⟩ := (loadData_error_iff H ds).mpr hfail
    exact ⟨⟨err, herr⟩, loadData_error_keeps H ds err herr⟩
  · intro H0 ds0 hJoin hRead hP hW hload
    exact loadData_twice_same_maps H0 H ds0 ds hJoin hRead hP hW hload

/-- C10, at a host whose files hold the spec's scenario: a load into a new store
and a reload one minute later both succeed and leave the same maps; and a
reload from a host whose ward.json is truncated fails and keeps the store. -/
theorem reloadData_round_trip_witness :
    (NewDataService "data").LoadData (scenarioHost 1700000000)
      = (none, { sampleStore with loadTime := 1700000000 }) ∧
    (∃ ds2, DataService.ReloadData (scenarioHost 1700000060)
        { sampleStore with loadTime := 1700000000 } = (none, ds2) ∧
      ds2.provinces = sampleStore.provinces ∧ ds2.wards = sampleStore.wards ∧
      ds2.loadTime = 1700000060) ∧
    DataService.ReloadData truncatedWardHost sampleStore
      = (some "failed to parse ward.json: unexpected end of JSON input", sampleStore) := by
  refine ⟨by decide, ?_, by decide⟩
  obtain ⟨ds2, h, hp, hw, _, _, _, ht⟩ :=
    (reloadData_round_trip (scenarioHost 1700000060)
      { sampleStore with loadTime := 1700000000 }).2.2.2.2
      (scenarioHost 1700000000) (NewDataService "data") rfl rfl rfl rfl (by decide)
  exact ⟨ds2, h, hp, hw, ht⟩

/-! ## Global search (C11) -/

/-- For a limit that is not negative, the truncation of `GlobalSearch` keeps the
first `limit` elements. -/
theorem truncateTo_eq_take {α : Type} (x : List α) (limit : Int) (hlim : 0 ≤ limit) :
    truncateTo x limit = some (x.take limit.toNat) := by
  unfold truncateTo
  by_cases h : (x.length : Int) > limit
  · have hb : (0 : Int) ≤ 0 ∧ 0 ≤ limit ∧ limit ≤ (x.length : Int) := by omega
    simp only [h, if_true, sliceExpr, hb, and_self, Int.toNat_zero, List.drop_zero,
      Nat.sub_zero]
  · simp only [h, if_false]
    rw [List.take_of_length_le]
    omega

/-- C11: under the contract of `sort.Slice`, for a limit ≥ 0 `GlobalSearch`
returns as provinces the first `min(limit, n)` elements of the `n` matching
provinces (substring rule, no type filter) in ascending order of name when the
kind is "all" or "province", and no province otherwise; as wards the first
`min(limit, m)` elements of the `m` matching wards in ascending order of name
when the kind is "all" or "ward", and no ward otherwise. Each list holds at most
`limit` entries on its own. The sorted matches are a rearrangement of the
entries of the snapshot that match, each entry once, so `n` and `m` are the
numbers of matching entries. -/
theorem globalSearch_truncates_each (L : StdLib) (hL : L.SortContract) (ds : DataService)
    (query entity : String) (limit : Int) (hlim : 0 ≤ limit) :
    ∃ r, ds.GlobalSearch L query entity limit = some r ∧
      r.Provinces = (if entity = "all" ∨ entity = "province"
        then (ds.matchedProvinces L query "").take limit.toNat else []) ∧
      r.Wards = (if entity = "all" ∨ entity = "ward"
        then (ds.matchedWards L query "" "").take limit.toNat else []) ∧
      ((entity = "all" ∨ entity = "province") →
        (r.Provinces.length : Int) = min limit (ds.matchedProvinces L query "").length) ∧
      ((entity = "all" ∨ entity = "ward") →
        (r.Wards.length : Int) = min limit (ds.matchedWards L query "" "").length) ∧
      (r.Provinces.length : Int) ≤ limit ∧ (r.Wards.length : Int) ≤ limit ∧
      (ds.matchedProvinces L query "").Pairwise (fun a b => strLess b.Name a.Name = false) ∧
      (ds.matchedWards L query "" "").Pairwise (fun a b => strLess b.Name a.Name = false) ∧
      (∀ p : Province, p ∈ ds.matchedProvinces L query "" ↔
        p ∈ ds.provinces.map Prod.snd ∧ ProvinceMatchSpec L query "" p) ∧
      (∀ w : Ward, w ∈ ds.matchedWards L query "" "" ↔
        w ∈ ds.wards.map Prod.snd ∧ WardMatchSpec L query "" "" w) ∧
      (ds.matchedProvinces L query "").Perm
        ((ds.provinces.map Prod.snd).filter
          (fun p => decide (ProvinceMatchSpec L query "" p))) ∧
      (ds.matchedWards L query "" "").Perm
        ((ds.wards.map Prod.snd).filter
          (fun w => decide (WardMatchSpec L query "" "" w))) ∧
      (ds.matchedProvinces L query "").length
        = (ds.provinces.filter
            (fun e => decide (ProvinceMatchSpec L query "" e.2))).length ∧
      (ds.matchedWards L query "" "").length
        = (ds.wards.filter (fun e => decide (WardMatchSpec L query "" "" e.2))).length := by
  have hpf : (fun p => decide (ProvinceMatchSpec L query "" p))
      = Province.passes L query "" := by
    funext p
    rw [Bool.eq_iff_iff, decide_eq_true_iff, province_passes_iff]
  have hwf : (fun w => decide (WardMatchSpec L query "" "" w))
      = Ward.passes L query "" "" := by
    funext w
    rw [Bool.eq_iff_iff, decide_eq_true_iff, ward_passes_iff]
  have hpp : (ds.matchedProvinces L query "").Perm
      ((ds.provinces.map Prod.snd).filter
        (fun p => decide (ProvinceMatchSpec L query "" p))) := by
    rw [hpf]
    exact matchedProvinces_perm L hL ds query ""
  have hwp : (ds.matchedWards L query "" "").Perm
      ((ds.wards.map Prod.snd).filter
        (fun w => decide (WardMatchSpec L query "" "" w))) := by
    rw [hwf]
    exact matchedWards_perm L hL ds query "" ""
  have hpl : ((ds.provinces.map Prod.snd).filter
      (fun p => decide (ProvinceMatchSpec L query "" p))).length
      = (ds.provinces.filter
          (fun e => decide (ProvinceMatchSpec L query "" e.2))).length := by
    rw [List.filter_map, List.length_map]
    rfl
  have hwl : ((ds.wards.map Prod.snd).filter
      (fun w => decide (WardMatchSpec L query "" "" w))).length
      = (ds.wards.filter (fun e => decide (WardMatchSpec L query "" "" e.2))).length := by
    rw [List.filter_map, List.length_map]
    rfl
  have hP : (entity == "all" || entity == "province") = true
      ↔ (entity = "all" ∨ entity = "province") := by
    simp
  have hW : (entity == "all" || entity == "ward") = true
      ↔ (entity = "all" ∨ entity = "ward") := by
    simp
  have hres : ds.GlobalSearch L query entity limit
      = some { Provinces := (if entity = "all" ∨ entity = "province"
                  then (ds.matchedProvinces L query "").take limit.toNat else []),
               Wards := (if entity = "all" ∨ entity = "ward"
                  then (ds.matchedWards L query "" "").take limit.toNat else []) } := by
    unfold DataService.GlobalSearch DataService.matchedProvinces DataService.matchedWards
    simp only [truncateTo_eq_take _ limit hlim]
    by_cases h1 : entity = "all" ∨ entity = "province" <;>
      by_cases h2 : entity = "all" ∨ entity = "ward" <;>
      simp only [hP.mpr, hP, hW, h1, h2, if_true, if_false, Bool.false_eq_true]
  refine ⟨_, hres, rfl, rfl, ?_, ?_, ?_, ?_, (hL Province Province.Name _).2,
    (hL Ward Ward.Name _).2, ?_, ?_, hpp, hwp, hpp.length_eq.trans hpl,
    hwp.length_eq.trans hwl⟩
  · intro h
    simp only [h, if_true, List.length_take]
    omega
  · intro h
    simp only [h, if_true, List.length_take]
    omega
  · by_cases h : entity = "all" ∨ entity = "province"
    · simp only [h, if_true, List.length_take]
      omega
    · simp only [h, if_false, List.length_nil]
      exact hlim
  · by_cases h : entity = "all" ∨ entity = "ward"
    · simp only [h, if_true, List.length_take]
      omega
    · simp only [h, if_false, List.length_nil]
      exact hlim
  · intro p
    rw [(matchedProvinces_perm L hL ds query "").mem_iff, List.mem_filter,
      province_passes_iff]
  · intro w
    rw [(matchedWards_perm L hL ds query "" "").mem_iff, List.mem_filter, ward_passes_iff]

/-- C11, at the sample snapshot with query "n", kind "all" and limit 1: one
province and one ward are returned, `2 * limit` entries together. -/
theorem globalSearch_truncates_each_witness :
    smallLib.SortContract ∧ (0 : Int) ≤ 1 ∧
    twoStore.GlobalSearch smallLib "n" "all" 1
      = some { Provinces := [anGiang], Wards := [tanThanhA] } ∧
    ∃ r, twoStore.GlobalSearch smallLib "n" "all" 1 = some r ∧
      r.Provinces.length + r.Wards.length = 2 * 1 := by
  refine ⟨smallLib_sortContract, by decide, by decide, ?_⟩
  obtain ⟨r, hr, _⟩ :=
    globalSearch_truncates_each smallLib smallLib_sortContract twoStore "n" "all" 1
      (by decide)
  have h2 : twoStore.GlobalSearch smallLib "n" "all" 1
      = some { Provinces := [anGiang], Wards := [tanThanhA] } := by decide
  rw [h2] at hr
  cases hr
  exact ⟨_, h2, rfl⟩

/-! ## Types (C12) -/

/-- Reading a map after an assignment. -/
theorem mapGet_mapSet {β : Type} (m : List (String × β)) (key k : String) (v : β) :
    mapGet (mapSet m key v) k = if key = k then some v else mapGet m k := by
  induction m with
  | nil => simp [mapSet, mapGet]
  | cons e m ih =>
    obtain ⟨k0, x⟩ := e
    by_cases h0 : k0 = key
    · subst h0
      by_cases h1 : k0 = k
      · simp [mapSet, mapGet, h1]
      · simp [mapSet, mapGet, h1]
    · by_cases h1 : k0 = k
      · subst h1
        have h2 : ¬ key = k0 := fun h => h0 h.symm
        simp [mapSet, mapGet, h0, h2]
      · simp [mapSet, mapGet, h0, h1, ih]

/-- The keys of a map after an assignment. -/
theorem mapSet_keys {β : Type} (m : List (String × β)) (key k : String) (v : β) :
    k ∈ (mapSet m key v).map Prod.fst ↔ k = key ∨ k ∈ m.map Prod.fst := by
  rw [← mapGet_isSome_iff, ← mapGet_isSome_iff, mapGet_mapSet]
  by_cases h : key = k
  · simp [h]
  · have h2 : ¬ k = key := fun hk => h hk.symm
    simp [h, h2]

/-- An assignment keeps the keys of a map distinct. -/
theorem mapSet_nodupKeys {β : Type} (m : List (String × β)) (key : String) (v : β)
    (hnd : NodupKeys m) : NodupKeys (mapSet m key v) := by
  induction m with
  | nil => simp [mapSet, NodupKeys]
  | cons e m ih =>
    obtain ⟨k0, x⟩ := e
    unfold NodupKeys at hnd ⊢
    rw [List.map_cons, List.nodup_cons] at hnd
    by_cases h0 : k0 = key
    · simp only [mapSet, h0, if_true, List.map_cons, List.nodup_cons]
      rw [← h0]
      exact hnd
    · simp only [mapSet, h0, if_false, List.map_cons, List.nodup_cons]
      refine ⟨?_, ih hnd.2⟩
      intro hmem
      rcases (mapSet_keys m key k0 v).mp hmem with h | h
      · exact h0 h
      · exact hnd.1 h

/-- The first loop of `GetProvinceTypes` and `GetWardTypes` builds a map whose keys
are the types met. -/
theorem typeMap_foldl {γ : Type} (f : γ → String) (l : List γ) (acc : List (String × Bool))
    (hnd : NodupKeys acc) :
    NodupKeys (l.foldl (fun m e => mapSet m (f e) true) acc) ∧
    ∀ k, k ∈ (l.foldl (fun m e => mapSet m (f e) true) acc).map Prod.fst ↔
      k ∈ acc.map Prod.fst ∨ ∃ e ∈ l, f e = k := by
  induction l generalizing acc with
  | nil => simp [hnd]
  | cons x l ih =>
    rw [List.foldl_cons]
    obtain ⟨h1, h2⟩ := ih (mapSet acc (f x) true) (mapSet_nodupKeys acc (f x) true hnd)
    refine ⟨h1, ?_⟩
    intro k
    rw [h2 k, mapSet_keys]
    constructor
    · rintro ((h | h) | ⟨e, he, hk⟩)
      · exact Or.inr ⟨x, List.mem_cons_self _ _, h.symm⟩
      · exact Or.inl h
      · exact Or.inr ⟨e, List.mem_cons_of_mem _ he, hk⟩
    · rintro (h | ⟨e, he, hk⟩)
      · exact Or.inl (Or.inr h)
      · rcases List.mem_cons.mp he with he | he
        · subst he
          exact Or.inl (Or.inl hk.symm)
        · exact Or.inr ⟨e, he, hk⟩

/-- The second loop of `GetProvinceTypes` and `GetWardTypes` collects the keys. -/
theorem foldl_append_keys {β : Type} (m : List (String × β)) (acc : List String) :
    m.foldl (fun types e => types ++ [e.1]) acc = acc ++ m.map Prod.fst := by
  induction m generalizing acc with
  | nil => simp
  | cons e m ih => simp [List.foldl_cons, ih]

/-- The sorted keys of a map are strictly ascending, are its keys, and do not
depend on the `range` order. -/
theorem sortedKeys_spec (L : StdLib) (hL : L.SortContract) (m : List (String × Bool))
    (hnd : NodupKeys m) :
    (sortedKeys L m).Pairwise (fun a b => strLess a b = true) ∧
    (∀ t, t ∈ sortedKeys L m ↔ t ∈ m.map Prod.fst) ∧
    ∀ order : List (String × Bool), order.Perm m → sortedKeys L order = sortedKeys L m := by
  have hperm : ∀ m2 : List (String × Bool), (sortedKeys L m2).Perm (m2.map Prod.fst) := by
    intro m2
    unfold sortedKeys
    rw [foldl_append_keys, List.nil_append]
    exact (hL String id _).1
  have hsorted : ∀ m2 : List (String × Bool),
      (sortedKeys L m2).Pairwise (fun a b => strLess (id b) (id a) = false) := by
    intro m2
    unfold sortedKeys
    exact (hL String id _).2
  refine ⟨?_, ?_, ?_⟩
  · have hle : (sortedKeys L m).Pairwise (fun a b => a ≤ b) :=
      (hsorted m).imp (fun h => (strLess_eq_false_iff _ _).mp h)
    have hne : (sortedKeys L m).Pairwise (fun a b => a ≠ b) :=
      (hperm m).nodup_iff.mpr hnd
    exact (hle.and hne).imp (fun h => (strLess_iff _ _).mpr (lt_of_le_of_ne h.1 h.2))
  · intro t
    exact (hperm m).mem_iff
  · intro order hp
    have hpp : (sortedKeys L order).Perm (sortedKeys L m) :=
      (hperm order).trans ((hp.map Prod.fst).trans (hperm m).symm)
    have h := (sorted_perm_unique id _ _ hpp (hsorted order) (hsorted m)).1
    simpa using h

/-- C12: under the contract of the sort, `GetProvinceTypes` returns a strictly
ascending list that contains `t` iff some province of the snapshot has type `t`,
whatever order the intermediate map is traversed in; `GetWardTypes` does the same
over the wards. -/
theorem getTypes_sorted_unique (L : StdLib) (hL : L.SortContract) (ds : DataService) :
    (ds.GetProvinceTypes L).Pairwise (fun a b => strLess a b = true) ∧
    (∀ t, t ∈ ds.GetProvinceTypes L ↔ ∃ p ∈ ds.provinces.map Prod.snd, p.Type_ = t) ∧
    (∀ order : List (String × Bool), order.Perm ds.provinceTypeMap →
      sortedKeys L order = ds.GetProvinceTypes L) ∧
    (ds.GetWardTypes L).Pairwise (fun a b => strLess a b = true) ∧
    (∀ t, t ∈ ds.GetWardTypes L ↔ ∃ w ∈ ds.wards.map Prod.snd, w.Type_ = t) ∧
    (∀ order : List (String × Bool), order.Perm ds.wardTypeMap →
      sortedKeys L order = ds.GetWardTypes L) := by
  have hp := typeMap_foldl (fun e : String × Province => e.2.Type_) ds.provinces []
    (by simp [NodupKeys])
  have hw := typeMap_foldl (fun e : String × Ward => e.2.Type_) ds.wards []
    (by simp [NodupKeys])
  have sp := sortedKeys_spec L hL ds.provinceTypeMap hp.1
  have sw := sortedKeys_spec L hL ds.wardTypeMap hw.1
  refine ⟨sp.1, ?_, sp.2.2, sw.1, ?_, sw.2.2⟩
  · intro t
    unfold DataService.GetProvinceTypes
    rw [sp.2.1 t]
    unfold DataService.provinceTypeMap
    rw [hp.2 t]
    simp only [List.map_nil, List.not_mem_nil, false_or, List.mem_map]
    constructor
    · rintro ⟨e, he, ht⟩
      exact ⟨e.2, ⟨e, he, rfl⟩, ht⟩
    · rintro ⟨p, ⟨e, he, hep⟩, ht⟩
      exact ⟨e, he, by rw [hep]; exact ht⟩
  · intro t
    unfold DataService.GetWardTypes
    rw [sw.2.1 t]
    unfold DataService.wardTypeMap
    rw [hw.2 t]
    simp only [List.map_nil, List.not_mem_nil, false_or, List.mem_map]
    constructor
    · rintro ⟨e, he, ht⟩
      exact ⟨e.2, ⟨e, he, rfl⟩, ht⟩
    · rintro ⟨w, ⟨e, he, hew⟩, ht⟩
      exact ⟨e, he, by rw [hew]; exact ht⟩

/-- C12, at the sample snapshot: the province types are "thanh-pho", "tinh" and
the one ward type is "xa". -/
theorem getTypes_sorted_unique_witness :
    smallLib.SortContract ∧
    twoStore.GetProvinceTypes smallLib = ["thanh-pho", "tinh"] ∧
    twoStore.GetWardTypes smallLib = ["xa"] ∧
    (twoStore.GetProvinceTypes smallLib).Pairwise (fun a b => strLess a b = true) :=
  ⟨smallLib_sortContract, by decide, by decide,
    (getTypes_sorted_unique smallLib smallLib_sortContract twoStore).1⟩

/-! ## Statistics (C13) -/

/-- The counting loop of `GetDataStats` adds, for each type, the number of entries
of that type. -/
theorem countMap_foldl {γ : Type} (f : γ → String) (l : List γ) (acc : List (String × Int))
    (hnd : NodupKeys acc) :
    NodupKeys (l.foldl (fun m e => mapIncr m (f e)) acc) ∧
    (∀ t, (mapGet (l.foldl (fun m e => mapIncr m (f e)) acc) t).getD 0
      = (mapGet acc t).getD 0 + (l.countP (fun e => decide (f e = t)) : Int)) ∧
    (∀ k, k ∈ (l.foldl (fun m e => mapIncr m (f e)) acc).map Prod.fst ↔
      k ∈ acc.map Prod.fst ∨ ∃ e ∈ l, f e = k) := by
  induction l generalizing acc with
  | nil => simp [hnd]
  | cons x l ih =>
    rw [List.foldl_cons]
    obtain ⟨h1, h2, h3⟩ := ih (mapIncr acc (f x))
      (mapSet_nodupKeys acc (f x) _ hnd)
    refine ⟨h1, ?_, ?_⟩
    · intro t
      rw [h2 t, List.countP_cons]
      unfold mapIncr
      rw [mapGet_mapSet]
      by_cases h : f x = t
      · simp only [h, if_true, Option.getD_some, decide_True, Nat.cast_add, Nat.cast_one]
        omega
      · simp only [h, if_false, decide_False, Bool.false_eq_true, Nat.add_zero]
    · intro k
      rw [h3 k]
      unfold mapIncr
      rw [mapSet_keys]
      constructor
      · rintro ((h | h) | ⟨e, he, hk⟩)
        · exact Or.inr ⟨x, List.mem_cons_self _ _, h.symm⟩
        · exact Or.inl h
        · exact Or.inr ⟨e, List.mem_cons_of_mem _ he, hk⟩
      · rintro (h | ⟨e, he, hk⟩)
        · exact Or.inl (Or.inr h)
        · rcases List.mem_cons.mp he with he | he
          · subst he
            exact Or.inl (Or.inl hk.symm)
          · exact Or.inr ⟨e, he, hk⟩

/-- A map built by the counting loop from the empty map holds, under each type
met, the number of entries of that type, and has no other key. -/
theorem countMap_spec {γ : Type} (f : γ → String) (l : List γ) :
    NodupKeys (l.foldl (fun m e => mapIncr m (f e)) []) ∧
    (∀ t, (∃ e ∈ l, f e = t) →
      mapGet (l.foldl (fun m e => mapIncr m (f e)) []) t
        = some (l.countP (fun e => decide (f e = t)) : Int)) ∧
    (∀ t, (¬ ∃ e ∈ l, f e = t) →
      mapGet (l.foldl (fun m e => mapIncr m (f e)) []) t = none) := by
  obtain ⟨h1, h2, h3⟩ := countMap_foldl f l [] (by simp [NodupKeys])
  refine ⟨h1, ?_, ?_⟩
  · intro t ht
    have hk : t ∈ (l.foldl (fun m e => mapIncr m (f e)) []).map Prod.fst :=
      (h3 t).mpr (Or.inr ht)
    obtain ⟨v, hv⟩ := (mapGet_isSome_iff _ _).mpr hk
    have h := h2 t
    rw [hv] at h
    simp only [Option.getD_some, mapGet, Option.getD_none, zero_add] at h
    rw [hv, h]
  · intro t ht
    rw [mapGet_eq_none_iff, h3 t]
    simpa using ht

/-- C13 as stated fails: for a store with two provinces and no ward,
`GetDataStats` sets neither `province_types` nor `ward_types`, although a
province of type "tinh" is in the store. -/
theorem getDataStats_half_empty_no_type_maps :
    halfEmptyStore.GetDataStats
      = { provinces := 2, wards := 0, load_time := 0, is_loaded := false,
          province_types := none, ward_types := none } ∧
    anGiang ∈ halfEmptyStore.provinces.map Prod.snd ∧ anGiang.Type_ = "tinh" := by
  refine ⟨by decide, by decide, by decide⟩

/-- C13, amended: for every store state `GetDataStats` holds provinces = number
of entries of the provinces map, wards = number of entries of the wards map,
load_time = the stored load time and is_loaded = `IsDataLoaded()`; when
`IsDataLoaded()` is true it also holds the maps province_types and ward_types in
which each type met is mapped to the number of provinces (wards) of that type
and no other key occurs; when `IsDataLoaded()` is false the two maps are
absent. -/
theorem getDataStats_fields (ds : DataService) :
    ds.GetDataStats.provinces = ds.provinces.length ∧
    ds.GetDataStats.wards = ds.wards.length ∧
    ds.GetDataStats.load_time = ds.loadTime ∧
    ds.GetDataStats.is_loaded = ds.IsDataLoaded ∧
    (ds.IsDataLoaded = false →
      ds.GetDataStats.province_types = none ∧ ds.GetDataStats.ward_types = none) ∧
    (ds.IsDataLoaded = true → ∃ pm wm,
      ds.GetDataStats.province_types = some pm ∧ ds.GetDataStats.ward_types = some wm ∧
      NodupKeys pm ∧ NodupKeys wm ∧
      (∀ t, (∃ e ∈ ds.provinces, e.2.Type_ = t) →
        mapGet pm t = some (ds.provinces.countP (fun e => decide (e.2.Type_ = t)) : Int)) ∧
      (∀ t, (¬ ∃ e ∈ ds.provinces, e.2.Type_ = t) → mapGet pm t = none) ∧
      (∀ t, (∃ e ∈ ds.wards, e.2.Type_ = t) →
        mapGet wm t = some (ds.wards.countP (fun e => decide (e.2.Type_ = t)) : Int)) ∧
      (∀ t, (¬ ∃ e ∈ ds.wards, e.2.Type_ = t) → mapGet wm t = none)) := by
  unfold DataService.GetDataStats
  by_cases h : ds.IsDataLoaded = true
  · simp only [h, if_true, true_and, Bool.true_eq_false, false_implies, true_implies]
    have cp := countMap_spec (fun e : String × Province => e.2.Type_) ds.provinces
    have cw := countMap_spec (fun e : String × Ward => e.2.Type_) ds.wards
    exact ⟨_, _, rfl, rfl, cp.1, cw.1, cp.2.1, cp.2.2, cw.2.1, cw.2.2⟩
  · have h2 : ds.IsDataLoaded = false := by simpa using h
    simp [h2]

/-! ## Wards of a province (C16) -/

/-- With no search text and no type filter, a ward passes iff the province code
is empty or is its parent code. -/
theorem ward_passes_parent_only (L : StdLib) (provinceCode : String) (w : Ward) :
    w.passes L "" "" provinceCode = true ↔ provinceCode = "" ∨ w.ParentCode = provinceCode := by
  simp [Ward.passes, Ward.MatchesType, Ward.MatchesParentCode]

/-- C16 as stated fails at the empty string: `GetWardsByProvince("")` returns both
wards of the sample snapshot, whose parent codes are "70" and "80". -/
theorem getWardsByProvince_empty_code_returns_all :
    twoStore.GetWardsByProvince smallLib "" = [tanThanhA, tanThanhB] ∧
    tanThanhA.ParentCode = "70" ∧ tanThanhA.ParentCode ≠ "" := by
  refine ⟨by decide, by decide, by decide⟩

/-- C16, amended: under the contract of `sort.Slice`, for a province code that is
not empty `GetWardsByProvince` returns a rearrangement of the wards of the
snapshot whose parent code is that code, each entry once, so every returned ward
has that parent code; for the empty string it returns a rearrangement of all
wards. -/
theorem getWardsByProvince_nonempty_code (L : StdLib) (hL : L.SortContract)
    (ds : DataService) (provinceCode : String) :
    (provinceCode ≠ "" →
      (ds.GetWardsByProvince L provinceCode).Perm
          ((ds.wards.map Prod.snd).filter (fun w => decide (w.ParentCode = provinceCode))) ∧
        (∀ w ∈ ds.GetWardsByProvince L provinceCode, w.ParentCode = provinceCode) ∧
        (∀ w, w ∈ ds.wards.map Prod.snd → w.ParentCode = provinceCode →
          (ds.GetWardsByProvince L provinceCode).count w
            = (ds.wards.map Prod.snd).count w)) ∧
    (provinceCode = "" →
      (ds.GetWardsByProvince L provinceCode).Perm (ds.wards.map Prod.snd)) := by
  have hperm : (ds.GetWardsByProvince L provinceCode).Perm
      ((ds.wards.map Prod.snd).filter (Ward.passes L "" "" provinceCode)) :=
    matchedWards_perm L hL ds "" "" provinceCode
  constructor
  · intro hne
    have hf : Ward.passes L "" "" provinceCode
        = (fun w => decide (w.ParentCode = provinceCode)) := by
      funext w
      rw [Bool.eq_iff_iff, ward_passes_parent_only, decide_eq_true_iff]
      simp [hne]
    rw [hf] at hperm
    refine ⟨hperm, ?_, ?_⟩
    · intro w hw
      have h := hperm.mem_iff.mp hw
      rw [List.mem_filter, decide_eq_true_iff] at h
      exact h.2
    · intro w _ hpar
      rw [hperm.count_eq, List.count_filter]
      simpa using hpar
  · intro he
    have hf : Ward.passes L "" "" provinceCode = (fun _ => true) := by
      funext w
      rw [Bool.eq_iff_iff, ward_passes_parent_only]
      simp [he]
    rw [hf, List.filter_true] at hperm
    exact hperm

/-- C16, amended, at the sample snapshot and the province code "70": the one ward
of that province is returned. -/
theorem getWardsByProvince_nonempty_code_witness :
    smallLib.SortContract ∧ twoStore.GetWardsByProvince smallLib "70" = [tanThanhA] ∧
    ∀ w ∈ twoStore.GetWardsByProvince smallLib "70", w.ParentCode = "70" :=
  ⟨smallLib_sortContract, by decide,
    ((getWardsByProvince_nonempty_code smallLib smallLib_sortContract twoStore "70").1
      (by decide)).2.1⟩

/-! ## Slice bounds and tiling (C18, C19) -/

/-- When the offset is inside the list, `PaginateSlice` evaluates the slice
expression `s[offset:end]` with the `end` of `paginateEnd`. -/
theorem paginateCase_eq_sliceExpr {α : Type} (s : List α) (limit offset : Int)
    (hlt : offset < (s.length : Int)) :
    paginateCase s limit offset
      = (sliceExpr s offset (paginateEnd s.length limit offset)).map
          (fun items => (items, (s.length : Int))) := by
  unfold paginateCase paginateEnd
  have hge : ¬ offset ≥ (s.length : Int) := by omega
  simp only [hge, if_false]

/-- An overflowing `offset + limit` makes the slice expression panic. -/
theorem paginateCase_overflow {α : Type} (s : List α) (limit offset : Int)
    (hl : IsInt limit) (ho : IsInt offset) (h0 : 0 ≤ offset)
    (hlt : offset < (s.length : Int)) (hov : intLimit ≤ offset + limit) :
    paginateEnd s.length limit offset < offset ∧ paginateCase s limit offset = none := by
  have hend : paginateEnd s.length limit offset < offset := by
    unfold paginateEnd wrapInt
    unfold IsInt at hl ho
    rw [intLimit_eq] at *
    dsimp only
    split <;> omega
  refine ⟨hend, ?_⟩
  rw [paginateCase_eq_sliceExpr s limit offset hlt]
  unfold sliceExpr
  have hb : ¬ (0 ≤ offset ∧ offset ≤ paginateEnd s.length limit offset ∧
      paginateEnd s.length limit offset ≤ (s.length : Int)) := by
    intro h
    omega
  simp only [hb, if_false, Option.map_none']

/-- C18 as stated fails: with limit the largest Go int (≥ 1) and offset 1 (≥ 0) on
two provinces, `end` is `-2^63`, below the offset, and `PaginateSlice` panics. -/
theorem paginateSlice_bounds_violated :
    (1 : Int) ≤ 9223372036854775807 ∧ IsInt 9223372036854775807 ∧
    paginateEnd ([anGiang, thanhPhoHaNoi].length) 9223372036854775807 1
      = -9223372036854775808 ∧
    ¬ ((1 : Int) ≤ paginateEnd ([anGiang, thanhPhoHaNoi].length) 9223372036854775807 1) ∧
    PaginateSlice (.provinces [anGiang, thanhPhoHaNoi]) 9223372036854775807 1 = none := by
  refine ⟨by decide, ?_, by decide, by decide, by decide⟩
  unfold IsInt intLimit
  decide

/-- C18, amended: for Go ints limit ≥ 1 and offset ≥ 0 whose sum does not exceed
the largest Go int, the slice expression `s[offset:end]` that `PaginateSlice`
evaluates (it does so when `offset < len(s)`) is in range,
`0 ≤ offset ≤ end ≤ len(s)`, and `PaginateSlice` does not panic; when the sum
exceeds the largest Go int and `offset < len(s)`, `end` is below `offset` and
`PaginateSlice` panics. -/
theorem paginateSlice_in_range (limit offset : Int) (hl : 1 ≤ limit) (ho : 0 ≤ offset)
    (hil : IsInt limit) (hio : IsInt offset) :
    (offset + limit < intLimit →
      (∀ total : Int, offset < total →
        0 ≤ offset ∧ offset ≤ paginateEnd total limit offset ∧
          paginateEnd total limit offset ≤ total) ∧
      (∀ slice : AnySlice, ∃ r, PaginateSlice slice limit offset = some r)) ∧
    (intLimit ≤ offset + limit →
      (∀ s : List Province, offset < (s.length : Int) →
        paginateEnd s.length limit offset < offset ∧
          PaginateSlice (.provinces s) limit offset = none) ∧
      (∀ s : List Ward, offset < (s.length : Int) →
        paginateEnd s.length limit offset < offset ∧
          PaginateSlice (.wards s) limit offset = none)) := by
  constructor
  · intro hno
    have hw : wrapInt (offset + limit) = offset + limit := by
      apply wrapInt_eq_self
      · rw [intLimit_eq]
        omega
      · exact hno
    constructor
    · intro total hlt
      unfold paginateEnd
      dsimp only
      rw [hw]
      refine ⟨ho, ?_, ?_⟩ <;> split <;> omega
    · intro slice
      cases slice with
      | provinces s =>
        simp only [PaginateSlice, paginateCase_eq s limit offset hl ho (Or.inr hno),
          Option.map_some']
        exact ⟨_, rfl⟩
      | wards s =>
        simp only [PaginateSlice, paginateCase_eq s limit offset hl ho (Or.inr hno),
          Option.map_some']
        exact ⟨_, rfl⟩
      | other => exact ⟨_, rfl⟩
  · intro hov
    constructor
    · intro s hlt
      obtain ⟨h1, h2⟩ := paginateCase_overflow s limit offset hil hio ho hlt hov
      exact ⟨h1, by simp only [PaginateSlice, h2, Option.map_none']⟩
    · intro s hlt
      obtain ⟨h1, h2⟩ := paginateCase_overflow s limit offset hil hio ho hlt hov
      exact ⟨h1, by simp only [PaginateSlice, h2, Option.map_none']⟩

/-- C18, amended, at limit 1 and offset 1 on two provinces: `end` is 2 and the
bounds `0 ≤ 1 ≤ 2 ≤ 2` hold. -/
theorem paginateSlice_in_range_witness :
    (1 : Int) ≤ 1 ∧ (0 : Int) ≤ 1 ∧ IsInt 1 ∧
    paginateEnd 2 1 1 = 2 ∧
    ((0 : Int) ≤ 1 ∧ (1 : Int) ≤ paginateEnd 2 1 1 ∧ paginateEnd 2 1 1 ≤ 2) :=
  ⟨by decide, by decide, by unfold IsInt intLimit; decide, by decide,
    ((paginateSlice_in_range 1 1 (by decide) (by decide) (by unfold IsInt intLimit; decide)
      (by unfold IsInt intLimit; decide)).1 (by unfold intLimit; decide)).1 2 (by decide)⟩

/-- Clipping the upper index to the length does not change a sub-sequence. -/
theorem subSequence_min {α : Type} (s : List α) (lo hi : Nat) :
    subSequence s lo (min hi s.length) = subSequence s lo hi := by
  unfold subSequence
  by_cases h : hi ≤ s.length
  · rw [min_eq_left h]
  · have h2 : s.length ≤ hi := by omega
    rw [min_eq_right h2, List.take_of_length_le (le_refl _), List.take_of_length_le h2]

/-- Adjacent sub-sequences concatenate. -/
theorem subSequence_append {α : Type} (s : List α) (a b c : Nat) (hab : a ≤ b)
    (hbc : b ≤ c) : subSequence s a b ++ subSequence s b c = subSequence s a c := by
  unfold subSequence
  have ht : s.take b = (s.take c).take b := by
    rw [List.take_take, min_eq_left hbc]
  rw [ht]
  generalize s.take c = t
  have h := List.take_append_drop b t
  have hd : t.drop a = (t.take b ++ t.drop b).drop a := by rw [h]
  rw [hd, List.drop_append_eq_append_drop]
  congr 1
  by_cases hlen : a ≤ (t.take b).length
  · have h0 : a - (t.take b).length = 0 := by omega
    rw [h0, List.drop_zero]
  · rw [List.length_take] at hlen
    have htl : t.length ≤ b := by omega
    rw [List.drop_eq_nil_of_le htl, List.drop_nil]

/-- A page with natural-number arguments, without overflow or past the end. -/
theorem paginateCase_nat {α : Type} (s : List α) (l o : Nat) (hl : 1 ≤ l)
    (hno : s.length ≤ o ∨ (o : Int) + (l : Int) < intLimit) :
    paginateCase s (l : Int) (o : Int)
      = some (subSequence s o (o + l), (s.length : Int)) := by
  have hno2 : (s.length : Int) ≤ (o : Int) ∨ (o : Int) + (l : Int) < intLimit := by
    rcases hno with h | h
    · exact Or.inl (by omega)
    · exact Or.inr h
  rw [paginateCase_eq s (l : Int) (o : Int) (by omega) (by omega) hno2]
  have h1 : ((o : Int)).toNat = o := Int.toNat_ofNat o
  have h2 : (min ((o : Int) + (l : Int)) (s.length : Int)).toNat = min (o + l) s.length := by
    by_cases h : o + l ≤ s.length
    · rw [min_eq_left (by omega), min_eq_left h]
      omega
    · rw [min_eq_right (by omega), min_eq_right (by omega)]
      omega
  rw [h1, h2, subSequence_min]

/-- Pages asked for in sequence, each starting inside the list and the last one
reaching its end, concatenate to the rest of the list. -/
theorem concatPages_drop {α : Type} (s : List α) (l : Nat) (hl : 1 ≤ l)
    (hil : (l : Int) < intLimit) (hlen : 2 * (s.length : Int) ≤ intLimit) (n : Nat) :
    ∀ o : Nat, (o = 0 ∨ l ≤ o) → s.length ≤ o + n * l →
      (∀ m, n = m + 1 → o + m * l < s.length) →
      concatPages s (l : Int) n (o : Int) = some (s.drop o) := by
  induction n with
  | zero =>
    intro o _ hcover _
    have h : s.length ≤ o := by omega
    simp only [concatPages, List.drop_eq_nil_of_le h]
  | succ m ih =>
    intro o hfirst hcover hin
    have hin0 := hin m rfl
    have hoin : o < s.length := by
      have : 0 ≤ m * l := Nat.zero_le _
      omega
    have hno : (o : Int) + (l : Int) < intLimit := by
      rcases hfirst with h | h
      · subst h
        simpa using hil
      · omega
    have hw : wrapInt ((o : Int) + (l : Int)) = ((o + l : Nat) : Int) := by
      rw [wrapInt_eq_self _ (by rw [intLimit_eq]; omega) hno]
      omega
    have hrest := ih (o + l) (Or.inr (by omega))
      (by
        have h3 : (m + 1) * l = m * l + l := by ring
        omega)
      (by
        intro k hk
        subst hk
        have h3 : (k + 1) * l = k * l + l := by ring
        omega)
    simp only [concatPages, paginateCase_nat s l o hl (Or.inr hno), hw, hrest]
    have h5 : s.drop (o + l) = subSequence s (o + l) (max (o + l) s.length) := by
      unfold subSequence
      rw [List.take_of_length_le (le_max_right _ _)]
    rw [h5, subSequence_append s o (o + l) _ (by omega) (le_max_left _ _)]
    unfold subSequence
    rw [List.take_of_length_le (le_max_right _ _)]

/-- C19 as stated fails: with limit `2^62` (≥ 1) and offset 0 on one ward, the
page at the offset is the ward and the page at `offset + limit` is empty, while
`2 * limit` overflows to `-2^63` and `PaginateSlice(s, 2 * limit, offset)`
panics. -/
theorem pages_double_limit_overflows :
    (1 : Int) ≤ 4611686018427387904 ∧ IsInt 4611686018427387904 ∧
    PaginateSlice (.wards [phucXa]) 4611686018427387904 0 = some (.wards [phucXa], 1) ∧
    PaginateSlice (.wards [phucXa]) 4611686018427387904
      (wrapInt (0 + 4611686018427387904)) = some (.wards [], 1) ∧
    wrapInt (2 * 4611686018427387904) = -9223372036854775808 ∧
    PaginateSlice (.wards [phucXa]) (wrapInt (2 * 4611686018427387904)) 0 = none := by
  refine ⟨by decide, ?_, by decide, by decide, by decide, by decide⟩
  unfold IsInt intLimit
  decide

/-- C19, amended: for a Go int limit ≥ 1, the items of the page at an offset ≥ 0
followed by the items of the page at `offset + limit` are the items of the page
of `2 * limit` elements at the offset, provided `offset + 2 * limit` does not
exceed the largest Go int; and for a list of at most `2^62` elements the pages
at offsets 0, limit, 2*limit, ..., as many as cover the list, concatenate to the
list. -/
theorem pages_tile (limit : Int) (hl : 1 ≤ limit) (hil : limit < intLimit) :
    (∀ (α : Type) (s : List α) (offset : Int), 0 ≤ offset →
      offset + 2 * limit < intLimit →
      ∃ a b c, paginateCase s limit offset = some (a, (s.length : Int)) ∧
        paginateCase s limit (offset + limit) = some (b, (s.length : Int)) ∧
        paginateCase s (2 * limit) offset = some (c, (s.length : Int)) ∧ a ++ b = c) ∧
    (∀ (α : Type) (s : List α), 2 * (s.length : Int) ≤ intLimit →
      concatPages s limit (pagesNeeded s.length limit) 0 = some s) := by
  obtain ⟨l, rfl⟩ := Int.eq_ofNat_of_zero_le (by omega : (0 : Int) ≤ limit)
  have hl1 : 1 ≤ l := by omega
  constructor
  · intro α s offset ho hno
    obtain ⟨o, rfl⟩ := Int.eq_ofNat_of_zero_le ho
    have e1 : (o : Int) + (l : Int) = ((o + l : Nat) : Int) := by omega
    have e2 : 2 * (l : Int) = ((2 * l : Nat) : Int) := by omega
    refine ⟨subSequence s o (o + l), subSequence s (o + l) (o + l + l),
      subSequence s o (o + 2 * l), ?_, ?_, ?_, ?_⟩
    · exact paginateCase_nat s l o hl1 (Or.inr (by omega))
    · rw [e1]
      exact paginateCase_nat s l (o + l) hl1 (Or.inr (by omega))
    · rw [e2]
      exact paginateCase_nat s (2 * l) o (by omega) (Or.inr (by omega))
    · rw [subSequence_append s o (o + l) (o + l + l) (by omega) (by omega)]
      congr 1
      omega
  · intro α s hlen
    have h := concatPages_drop s l hl1 hil hlen (pagesNeeded s.length (l : Int)) 0
      (Or.inl rfl)
    unfold pagesNeeded at h ⊢
    rw [Int.toNat_ofNat] at h ⊢
    have hq1 := Nat.div_mul_le_self (s.length + l - 1) l
    have hq2 := Nat.lt_div_mul_add (a := s.length + l - 1) (b := l) (by omega)
    have h2 := h (by omega)
      (by
        intro m hm
        rw [hm] at hq1
        have h3 : (m + 1) * l = m * l + l := by ring
        omega)
    simpa using h2

/-- C19, amended, at limit 1 on the two wards: the pages at offsets 0 and 1 are
the first and the second ward, and together they are the list. -/
theorem pages_tile_witness :
    (1 : Int) ≤ 1 ∧ (1 : Int) < intLimit ∧
    paginateCase [phucXa, trucBach] 1 0 = some ([phucXa], 2) ∧
    paginateCase [phucXa, trucBach] 1 1 = some ([trucBach], 2) ∧
    concatPages [phucXa, trucBach] 1 (pagesNeeded [phucXa, trucBach].length 1) 0
      = some [phucXa, trucBach] :=
  ⟨by decide, by unfold intLimit; decide, by decide, by decide,
    (pages_tile 1 (by decide) (by unfold intLimit; decide)).2 Ward [phucXa, trucBach]
      (by unfold intLimit; decide)⟩

/-! ## Page count (C14) -/

/-- The loop of `ilog2` finds the highest set bit. -/
theorem ilog2Fuel_spec (fuel : Nat) :
    ∀ n : Nat, 0 < n → n < 2 ^ fuel →
      2 ^ ilog2Fuel fuel n ≤ n ∧ n < 2 ^ (ilog2Fuel fuel n + 1) := by
  induction fuel with
  | zero =>
    intro n h0 h1
    simp at h1
    omega
  | succ fuel ih =>
    intro n h0 h1
    unfold ilog2Fuel
    by_cases h2 : n < 2
    · simp only [h2, if_true]
      omega
    · simp only [h2, if_false]
      have h3 : n / 2 < 2 ^ fuel := by
        rw [pow_succ] at h1
        omega
      obtain ⟨a, b⟩ := ih (n / 2) (by omega) h3
      rw [pow_succ, pow_succ]
      rw [pow_succ] at b
      omega

/-- The highest set bit of a positive integer below `2^64`. -/
theorem ilog2_spec (n : Nat) (h0 : 0 < n) (h1 : n < 2 ^ 64) :
    2 ^ ilog2 n ≤ n ∧ n < 2 ^ (ilog2 n + 1) :=
  ilog2Fuel_spec 64 n h0 h1

/-- Rounding to nearest does not pass an integer above the quotient. -/
theorem roundHalfEven_le (num den k : Nat) (hd : 0 < den) (h : num ≤ k * den) :
    roundHalfEven num den ≤ k := by
  unfold roundHalfEven
  have hq : num / den ≤ k := by
    rw [Nat.div_le_iff_le_mul_add_pred hd]
    rw [Nat.mul_comm]
    omega
  have hdm := Nat.div_add_mod num den
  by_cases hk : num / den = k
  · have hr : num % den = 0 := by
      rw [hk, Nat.mul_comm] at hdm
      omega
    simp only [hr, hk]
    split
    · rename_i hc
      omega
    · exact le_refl _
  · split <;> omega

/-- Rounding to nearest goes up past a quotient that exceeds `k + 1/2`. -/
theorem roundHalfEven_ge (num den k : Nat) (hd : 0 < den)
    (h : 2 * (k * den) + den < 2 * num) : k + 1 ≤ roundHalfEven num den := by
  unfold roundHalfEven
  have hq : k ≤ num / den := by
    rw [Nat.le_div_iff_mul_le hd]
    omega
  have hdm := Nat.div_add_mod num den
  by_cases hk : num / den = k
  · rw [hk, Nat.mul_comm] at hdm
    have hr : 2 * (num % den) > den := by omega
    simp only [hr, true_or, if_true, hk]
    exact le_refl _
  · split <;> omega

/-- Moving the exponent of a scaled comparison down by 52. -/
theorem scale_shift (a b : Nat) (k : Int)
    (h : b * 2 ^ k.toNat ≤ a * 2 ^ (-k).toNat) :
    b * 2 ^ (k - 52).toNat * 2 ^ 52 ≤ a * 2 ^ (-(k - 52)).toNat := by
  by_cases hk : 0 ≤ k
  · obtain ⟨K, rfl⟩ := Int.eq_ofNat_of_zero_le hk
    have e0 : (-(K : Int)).toNat = 0 := by omega
    have e1 : ((K : Int)).toNat = K := by omega
    rw [e0, e1, pow_zero, Nat.mul_one] at h
    by_cases h52 : 52 ≤ K
    · have e2 : ((K : Int) - 52).toNat = K - 52 := by omega
      have e3 : (-((K : Int) - 52)).toNat = 0 := by omega
      have hp : 2 ^ (K - 52) * 2 ^ 52 = 2 ^ K := by
        rw [← pow_add]
        congr 1
        omega
      rw [e2, e3, pow_zero, Nat.mul_one, Nat.mul_assoc, hp]
      exact h
    · have e2 : ((K : Int) - 52).toNat = 0 := by omega
      have e3 : (-((K : Int) - 52)).toNat = 52 - K := by omega
      have hp : 2 ^ 52 = 2 ^ K * 2 ^ (52 - K) := by
        rw [← pow_add]
        congr 1
        omega
      rw [e2, e3, pow_zero, Nat.mul_one, hp, ← Nat.mul_assoc]
      exact Nat.mul_le_mul_right _ h
  · obtain ⟨M, hM⟩ : ∃ M : Nat, k = -(M : Int) := ⟨(-k).toNat, by omega⟩
    subst hM
    have e0 : (-(-(M : Int))).toNat = M := by omega
    have e1 : (-(M : Int)).toNat = 0 := by omega
    have e2 : (-(M : Int) - 52).toNat = 0 := by omega
    have e3 : (-(-(M : Int) - 52)).toNat = M + 52 := by omega
    rw [e0, e1, pow_zero, Nat.mul_one] at h
    rw [e2, e3, pow_zero, Nat.mul_one, pow_add, ← Nat.mul_assoc]
    exact Nat.mul_le_mul_right _ h

/-- The float64 quotient of two positive integers below `2^64` is at least
`2^52` times the power of two of its exponent. -/
theorem quoExponent_norm (a b : Nat) (ha : 0 < a) (hb : 0 < b) (ha2 : a < 2 ^ 64)
    (hb2 : b < 2 ^ 64) :
    b * 2 ^ (quoExponent a b).toNat * 2 ^ 52 ≤ a * 2 ^ (-(quoExponent a b)).toNat := by
  unfold quoExponent
  apply scale_shift
  obtain ⟨la1, la2⟩ := ilog2_spec a ha ha2
  obtain ⟨lb1, lb2⟩ := ilog2_spec b hb hb2
  generalize ilog2 a = la at la1 la2
  generalize ilog2 b = lb at lb1 lb2
  split
  · rename_i h
    exact h
  · by_cases hd : lb < la
    · have e1 : ((la : Int) - (lb : Int) - 1).toNat = la - lb - 1 := by omega
      have e2 : (-((la : Int) - (lb : Int) - 1)).toNat = 0 := by omega
      rw [e1, e2, pow_zero, Nat.mul_one]
      have hp : 2 ^ (lb + 1) * 2 ^ (la - lb - 1) = 2 ^ la := by
        rw [← pow_add]
        congr 1
        omega
      calc b * 2 ^ (la - lb - 1) ≤ 2 ^ (lb + 1) * 2 ^ (la - lb - 1) :=
            Nat.mul_le_mul_right _ (le_of_lt lb2)
        _ = 2 ^ la := hp
        _ ≤ a := la1
    · have e1 : ((la : Int) - (lb : Int) - 1).toNat = 0 := by omega
      have e2 : (-((la : Int) - (lb : Int) - 1)).toNat = lb - la + 1 := by omega
      rw [e1, e2, pow_zero, Nat.mul_one]
      have hp : 2 ^ la * 2 ^ (lb - la + 1) = 2 ^ (lb + 1) := by
        rw [← pow_add]
        congr 1
        omega
      calc b ≤ 2 ^ (lb + 1) := le_of_lt lb2
        _ = 2 ^ la * 2 ^ (lb - la + 1) := hp.symm
        _ ≤ a * 2 ^ (lb - la + 1) := Nat.mul_le_mul_right _ la1

/-- For a dividend below `2^53`, rounding the float64 quotient up to an integer
gives the ceiling of the exact quotient. -/
theorem ceilQuoFloat64_exact (a b : Nat) (ha : a < 2 ^ 53) (hb : 0 < b) (hb2 : b < 2 ^ 64) :
    ceilQuoFloat64 a b = (a + b - 1) / b := by
  by_cases ha0 : a = 0
  · subst ha0
    unfold ceilQuoFloat64
    simp only [if_true]
    rw [Nat.zero_add, Nat.div_eq_of_lt (by omega)]
  · have hapos : 0 < a := Nat.pos_of_ne_zero ha0
    have ha64 : a < 2 ^ 64 := lt_trans ha (by norm_num)
    have hnorm := quoExponent_norm a b hapos hb ha64 hb2
    unfold ceilQuoFloat64 quoMantissa
    simp only [ha0, if_false]
    have hus : (quoExponent a b).toNat = 0 ∨ (-(quoExponent a b)).toNat = 0 := by omega
    generalize (quoExponent a b).toNat = u at *
    generalize (-(quoExponent a b)).toNat = s at *
    have hk1 := Nat.div_mul_le_self (a + b - 1) b
    have hk2 := Nat.lt_div_mul_add (a := a + b - 1) (b := b) hb
    generalize (a + b - 1) / b = k at *
    rcases hus with hu | hs
    · subst hu
      simp only [pow_zero, Nat.mul_one] at hnorm ⊢
      have hP : 0 < 2 ^ s := Nat.two_pow_pos s
      generalize 2 ^ s = P at *
      have hakb : a ≤ k * b := by omega
      have hkpos : 1 ≤ k := by
        rcases Nat.eq_zero_or_pos k with h | h
        · subst h
          omega
        · exact h
      obtain ⟨j, rfl⟩ : ∃ j, k = j + 1 := ⟨k - 1, by omega⟩
      have hjb : j * b + 1 ≤ a := by
        have h3 : (j + 1) * b = j * b + b := by ring
        omega
      have hbP : b < 2 * P := by
        have h4 : a * P < 2 ^ 53 * P := Nat.mul_lt_mul_of_pos_right ha hP
        have h5 : b * 2 ^ 52 < (2 * P) * 2 ^ 52 := by
          calc b * 2 ^ 52 ≤ a * P := hnorm
            _ < 2 ^ 53 * P := h4
            _ = (2 * P) * 2 ^ 52 := by ring
        exact Nat.lt_of_mul_lt_mul_right h5
      have hup : roundHalfEven (a * P) b ≤ (j + 1) * P := by
        apply roundHalfEven_le _ _ _ hb
        calc a * P ≤ (j + 1) * b * P := Nat.mul_le_mul_right P hakb
          _ = (j + 1) * P * b := by ring
      have hlo : j * P + 1 ≤ roundHalfEven (a * P) b := by
        apply roundHalfEven_ge _ _ _ hb
        have h6 : (j * b + 1) * P ≤ a * P := Nat.mul_le_mul_right P hjb
        have h7 : (j * b + 1) * P = j * P * b + P := by ring
        rw [h7] at h6
        omega
      have h9 : (j + 1) * P = j * P + P := by ring
      apply Nat.div_eq_of_lt_le
      · rw [h9]
        omega
      · have h8 : (j + 1 + 1) * P = (j + 1) * P + P := by ring
        rw [h8]
        omega
    · subst hs
      simp only [pow_zero, Nat.mul_one] at hnorm ⊢
      have hQ : 0 < 2 ^ u := Nat.two_pow_pos u
      generalize 2 ^ u = Q at *
      have hbQ : b * Q = 1 := by
        have h53 : (2 : Nat) ^ 53 = 2 * 2 ^ 52 := by norm_num
        have h4 : b * Q * 2 ^ 52 < 2 * 2 ^ 52 := by
          rw [← h53]
          exact lt_of_le_of_lt hnorm ha
        have h5 : b * Q < 2 := Nat.lt_of_mul_lt_mul_right h4
        have h6 : 0 < b * Q := Nat.mul_pos hb hQ
        omega
      have hb1 : b = 1 := by
        have h7 := Nat.le_mul_of_pos_right b hQ
        omega
      have hQ1 : Q = 1 := by
        have h7 := Nat.le_mul_of_pos_left Q hb
        omega
      subst hb1
      subst hQ1
      have hr : roundHalfEven a (1 * 1) = a := by
        unfold roundHalfEven
        rw [Nat.mul_one, Nat.mod_one, Nat.div_one]
        simp
      rw [hr]
      simp only [Nat.mul_one, Nat.add_sub_cancel, Nat.div_one] at hk1 hk2 ⊢
      omega

/-- Rounding to nearest does not go below the truncated quotient. -/
theorem roundHalfEven_ge_div (num den : Nat) : num / den ≤ roundHalfEven num den := by
  unfold roundHalfEven
  split <;> omega

/-- An integer below `2^53` is a float64. -/
theorem float64OfNat_small (n : Nat) (h : n < 2 ^ 53) : float64OfNat n = n := by
  unfold float64OfNat
  simp only [h, if_true]

/-- A Go int from `2^53` on is converted to a float64 from `2^53` on. -/
theorem float64OfNat_large (n : Nat) (h1 : 2 ^ 53 ≤ n) (h2 : n < 2 ^ 63) :
    2 ^ 53 ≤ float64OfNat n ∧ float64OfNat n < 2 ^ 64 := by
  have hn0 : 0 < n := lt_of_lt_of_le (by norm_num) h1
  obtain ⟨l1, l2⟩ := ilog2_spec n hn0 (lt_trans h2 (by norm_num))
  unfold float64OfNat
  have hnot : ¬ n < 2 ^ 53 := by omega
  simp only [hnot, if_false]
  generalize ilog2 n = k at l1 l2
  have hk1 : 53 ≤ k := by
    have h3 : 2 ^ 53 < 2 ^ (k + 1) := lt_of_le_of_lt h1 l2
    have h4 := (Nat.pow_lt_pow_iff_right (by norm_num : 1 < 2)).mp h3
    omega
  have hk2 : k ≤ 62 := by
    have h3 : 2 ^ k < 2 ^ 63 := lt_of_le_of_lt l1 h2
    have h4 := (Nat.pow_lt_pow_iff_right (by norm_num : 1 < 2)).mp h3
    omega
  have hD : 0 < 2 ^ (k - 52) := Nat.two_pow_pos _
  have hp1 : 2 ^ 52 * 2 ^ (k - 52) = 2 ^ k := by
    rw [← pow_add]
    congr 1
    omega
  have hp2 : 2 ^ 53 * 2 ^ (k - 52) = 2 ^ (k + 1) := by
    rw [← pow_add]
    congr 1
    omega
  have hlow : 2 ^ 52 ≤ roundHalfEven n (2 ^ (k - 52)) := by
    refine le_trans ?_ (roundHalfEven_ge_div _ _)
    rw [Nat.le_div_iff_mul_le hD, hp1]
    exact l1
  have hup : roundHalfEven n (2 ^ (k - 52)) ≤ 2 ^ 53 := by
    apply roundHalfEven_le _ _ _ hD
    rw [hp2]
    exact le_of_lt l2
  constructor
  · calc 2 ^ 53 ≤ 2 ^ k := Nat.pow_le_pow_right (by norm_num) hk1
      _ = 2 ^ 52 * 2 ^ (k - 52) := hp1.symm
      _ ≤ roundHalfEven n (2 ^ (k - 52)) * 2 ^ (k - 52) := Nat.mul_le_mul_right _ hlow
  · calc roundHalfEven n (2 ^ (k - 52)) * 2 ^ (k - 52)
        ≤ 2 ^ 53 * 2 ^ (k - 52) := Nat.mul_le_mul_right _ hup
      _ = 2 ^ (k + 1) := hp2
      _ ≤ 2 ^ 63 := Nat.pow_le_pow_right (by norm_num) (by omega)
      _ < 2 ^ 64 := by norm_num

/-- For a total below `2^53` and a limit that is a positive Go int, the float64
computation of the handlers gives the ceiling of the exact quotient. -/
theorem pageCount_nat (a b : Nat) (ha : a < 2 ^ 53) (hb : 1 ≤ b) (hb2 : b < 2 ^ 63) :
    ceilQuoFloat64 (float64OfNat a) (float64OfNat b) = (a + b - 1) / b := by
  rw [float64OfNat_small a ha]
  by_cases hs : b < 2 ^ 53
  · rw [float64OfNat_small b hs]
    exact ceilQuoFloat64_exact a b ha hb (lt_trans hs (by norm_num))
  · obtain ⟨f1, f2⟩ := float64OfNat_large b (by omega) hb2
    rw [ceilQuoFloat64_exact a (float64OfNat b) ha (by omega) f2]
    generalize float64OfNat b = c at f1 f2
    by_cases ha0 : a = 0
    · subst ha0
      rw [Nat.zero_add, Nat.zero_add, Nat.div_eq_of_lt (by omega),
        Nat.div_eq_of_lt (by omega)]
    · have e1 : (a + c - 1) / c = 1 := by
        apply Nat.div_eq_of_lt_le <;> omega
      have e2 : (a + b - 1) / b = 1 := by
        apply Nat.div_eq_of_lt_le <;> omega
      rw [e1, e2]

/-- The ceiling quotient is the least multiplier that reaches the dividend. -/
theorem ceilDiv_least (a b : Nat) (hb : 1 ≤ b) :
    a ≤ (a + b - 1) / b * b ∧ ∀ p : Nat, a ≤ p * b → (a + b - 1) / b ≤ p := by
  have h1 := Nat.lt_div_mul_add (a := a + b - 1) (b := b) hb
  constructor
  · omega
  · intro p hp
    rw [Nat.div_le_iff_le_mul_add_pred hb, Nat.mul_comm]
    omega

/-- For `0 ≤ total < 2^53` and a Go int `limit ≥ 1` the page count of the handlers
is the least integer `p` with `p * limit ≥ total`. -/
theorem pageCount_least (total limit : Int) (ht : 0 ≤ total)
    (ht53 : total < 9007199254740992) (hl : 1 ≤ limit) (hl2 : limit < intLimit) :
    total ≤ pageCount total limit * limit ∧
    (∀ p : Int, total ≤ p * limit → pageCount total limit ≤ p) ∧
    (total = 0 → pageCount total limit = 0) ∧
    pageCount total limit = (total + limit - 1) / limit := by
  obtain ⟨a, rfl⟩ := Int.eq_ofNat_of_zero_le ht
  obtain ⟨b, rfl⟩ := Int.eq_ofNat_of_zero_le (by omega : (0 : Int) ≤ limit)
  have ha : a < 2 ^ 53 := by
    have h53 : (2 : Nat) ^ 53 = 9007199254740992 := by norm_num
    omega
  have hb : 1 ≤ b := by omega
  have hb2 : b < 2 ^ 63 := by
    have h63 : (2 : Nat) ^ 63 = 9223372036854775808 := by norm_num
    rw [intLimit_eq] at hl2
    omega
  have hpc : pageCount (a : Int) (b : Int) = (((a + b - 1) / b : Nat) : Int) := by
    unfold pageCount intOfFloat64
    rw [Int.toNat_ofNat, Int.toNat_ofNat, pageCount_nat a b ha hb hb2]
    have hle : (a + b - 1) / b ≤ a := by
      rw [Nat.div_le_iff_le_mul_add_pred hb]
      have h1 := Nat.le_mul_of_pos_left a hb
      omega
    have hlt : (((a + b - 1) / b : Nat) : Int) < intLimit := by
      have h53 : (2 : Nat) ^ 53 = 9007199254740992 := by norm_num
      rw [intLimit_eq]
      omega
    simp only [hlt, if_true]
  obtain ⟨c1, c2⟩ := ceilDiv_least a b hb
  rw [hpc]
  refine ⟨?_, ?_, ?_, ?_⟩
  · exact_mod_cast c1
  · intro p hp
    have hp0 : 0 ≤ p := by
      by_contra hneg
      have h1 : p * (b : Int) ≤ -1 * (b : Int) :=
        Int.mul_le_mul_of_nonneg_right (by omega) (by omega)
      omega
    obtain ⟨q, rfl⟩ := Int.eq_ofNat_of_zero_le hp0
    have hq : a ≤ q * b := by exact_mod_cast hp
    exact_mod_cast c2 q hq
  · intro h0
    have ha0 : a = 0 := by omega
    subst ha0
    rw [Nat.zero_add, Nat.div_eq_of_lt (by omega)]
    rfl
  · have e : ((a + b - 1 : Nat) : Int) = (a : Int) + (b : Int) - 1 := by omega
    rw [Int.natCast_div, e]

/-- The limit parsed from a request is between 1 and 1000 and the offset is not
negative. -/
theorem parseQueryParams_range (W : Web) (searchP typeP limitP offsetP : String) :
    1 ≤ (APIHandler.parseQueryParams W searchP typeP limitP offsetP).2.2.1 ∧
    (APIHandler.parseQueryParams W searchP typeP limitP offsetP).2.2.1 ≤ 1000 ∧
    0 ≤ (APIHandler.parseQueryParams W searchP typeP limitP offsetP).2.2.2 := by
  unfold APIHandler.parseQueryParams
  dsimp only
  refine ⟨?_, ?_, ?_⟩
  · split
    · split
      · split <;> omega
      · omega
    · omega
  · split
    · split
      · split <;> omega
      · omega
    · omega
  · split
    · split
      · split <;> omega
      · omega
    · omega

/-- The envelope of a page answered by `GetProvinces`. -/
theorem getProvinces_page (L : StdLib) (W : Web) (ds : DataService)
    (searchP typeP limitP offsetP : String) (data : List Province) (pg : Pagination)
    (h : APIHandler.GetProvinces L W ds searchP typeP limitP offsetP
      = some (.page data pg)) :
    1 ≤ pg.Limit ∧ pg.Limit ≤ 1000 ∧ 0 ≤ pg.Total ∧
      pg.Pages = pageCount pg.Total pg.Limit ∧
      ∃ search typeFilter,
        pg.Total = ((ds.matchedProvinces L search typeFilter).length : Int) := by
  have hr := parseQueryParams_range W searchP typeP limitP offsetP
  unfold APIHandler.GetProvinces at h
  split at h
  · cases h
  · rcases hq : APIHandler.parseQueryParams W searchP typeP limitP offsetP with
      ⟨search, typeFilter, limit, offset⟩
    rw [hq] at h hr
    dsimp only at h hr
    rcases hs : ds.SearchProvinces L search typeFilter limit offset with _ | ⟨items, total⟩
    · rw [hs] at h
      cases h
    · rw [hs] at h
      simp only [Option.some.injEq, ListReply.page.injEq] at h
      obtain ⟨_, h2⟩ := h
      subst h2
      rw [searchProvinces_eq] at hs
      have ht := paginateCase_total _ _ _ _ _ hs
      refine ⟨hr.1, hr.2.1, ?_, by simp only [paginationOf], ⟨search, typeFilter, ht⟩⟩
      show 0 ≤ total
      rw [ht]
      exact Int.natCast_nonneg _

/-- The envelope of a page answered by `GetWards`. -/
theorem getWards_page (L : StdLib) (W : Web) (ds : DataService)
    (searchP typeP limitP offsetP provinceCodeP : String) (data : List Ward)
    (pg : Pagination)
    (h : APIHandler.GetWards L W ds searchP typeP limitP offsetP provinceCodeP
      = some (.page data pg)) :
    1 ≤ pg.Limit ∧ pg.Limit ≤ 1000 ∧ 0 ≤ pg.Total ∧
      pg.Pages = pageCount pg.Total pg.Limit ∧
      ∃ search typeFilter provinceCode,
        pg.Total
          = ((ds.matchedWards L search typeFilter provinceCode).length : Int) := by
  have hr := parseQueryParams_range W searchP typeP limitP offsetP
  unfold APIHandler.GetWards at h
  split at h
  · cases h
  · rcases hq : APIHandler.parseQueryParams W searchP typeP limitP offsetP with
      ⟨search, typeFilter, limit, offset⟩
    rw [hq] at h hr
    dsimp only at h hr
    rcases hs : ds.SearchWards L search typeFilter (W.TrimSpace provinceCodeP) limit offset
      with _ | ⟨items, total⟩
    · rw [hs] at h
      cases h
    · rw [hs] at h
      simp only [Option.some.injEq, ListReply.page.injEq] at h
      obtain ⟨_, h2⟩ := h
      subst h2
      rw [searchWards_eq] at hs
      have ht := paginateCase_total _ _ _ _ _ hs
      refine ⟨hr.1, hr.2.1, ?_, by simp only [paginationOf], ⟨search, typeFilter, _, ht⟩⟩
      show 0 ≤ total
      rw [ht]
      exact Int.natCast_nonneg _

/-- The envelope of a page answered by `GetProvinceWards`. -/
theorem getProvinceWards_page (L : StdLib) (W : Web) (ds : DataService)
    (provinceCode searchP typeP limitP offsetP : String) (data : List Ward)
    (pg : Pagination)
    (h : APIHandler.GetProvinceWards L W ds provinceCode searchP typeP limitP offsetP
      = some (.page data pg)) :
    1 ≤ pg.Limit ∧ pg.Limit ≤ 1000 ∧ 0 ≤ pg.Total ∧
      pg.Pages = pageCount pg.Total pg.Limit ∧
      ∃ search typeFilter provinceCode,
        pg.Total
          = ((ds.matchedWards L search typeFilter provinceCode).length : Int) := by
  have hr := parseQueryParams_range W searchP typeP limitP offsetP
  unfold APIHandler.GetProvinceWards at h
  split at h
  · cases h
  · split at h
    · cases h
    · split at h
      · cases h
      · rcases hq : APIHandler.parseQueryParams W searchP typeP limitP offsetP with
          ⟨search, typeFilter, limit, offset⟩
        rw [hq] at h hr
        dsimp only at h hr
        rcases hs : ds.SearchWards L search typeFilter provinceCode limit offset
          with _ | ⟨items, total⟩
        · rw [hs] at h
          cases h
        · rw [hs] at h
          simp only [Option.some.injEq, ListReply.page.injEq] at h
          obtain ⟨_, h2⟩ := h
          subst h2
          rw [searchWards_eq] at hs
          have ht := paginateCase_total _ _ _ _ _ hs
          refine ⟨hr.1, hr.2.1, ?_, by simp only [paginationOf], ⟨search, typeFilter, _, ht⟩⟩
          show 0 ≤ total
          rw [ht]
          exact Int.natCast_nonneg _

/-- The bare float expression outside the range of a slice length: for total
`2^53 + 1` and limit 1 the conversion `float64(total)` rounds to `2^53` and the
expression gives `2^53`; for total `3 * 2^52 + 1` and limit 3 it gives `2^52`.
No listing reaches these totals, which are lengths of slices held in memory. -/
theorem pageCount_rounds_large_total :
    float64OfNat 9007199254740993 = 9007199254740992 ∧
    pageCount 9007199254740993 1 = 9007199254740992 ∧
    ¬ ((9007199254740993 : Int) ≤ pageCount 9007199254740993 1 * 1) ∧
    pageCount 13510798882111489 3 = 4503599627370496 ∧
    ¬ ((13510798882111489 : Int) ≤ pageCount 13510798882111489 3 * 3) := by
  refine ⟨by decide, by decide, by decide, by decide, by decide⟩

/-- The sorted matches are not more than the entries of the provinces map. -/
theorem matchedProvinces_length_le (L : StdLib) (hL : L.SortContract) (ds : DataService)
    (search typeFilter : String) :
    (ds.matchedProvinces L search typeFilter).length ≤ ds.provinces.length := by
  rw [(matchedProvinces_perm L hL ds search typeFilter).length_eq]
  refine le_trans (List.length_filter_le _ _) ?_
  rw [List.length_map]

/-- The sorted matches are not more than the entries of the wards map. -/
theorem matchedWards_length_le (L : StdLib) (hL : L.SortContract) (ds : DataService)
    (search typeFilter provinceCode : String) :
    (ds.matchedWards L search typeFilter provinceCode).length ≤ ds.wards.length := by
  rw [(matchedWards_perm L hL ds search typeFilter provinceCode).length_eq]
  refine le_trans (List.length_filter_le _ _) ?_
  rw [List.length_map]

/-- The page count of an envelope is `ceil(total / limit)` when the total is below
`2^53` and the limit is between 1 and 1000. -/
theorem isCeilPages_of_pageCount (pg : Pagination) (h1 : 1 ≤ pg.Limit)
    (h2 : pg.Limit ≤ 1000) (h3 : 0 ≤ pg.Total) (h53 : pg.Total < 9007199254740992)
    (h4 : pg.Pages = pageCount pg.Total pg.Limit) : IsCeilPages pg := by
  have hlim : pg.Limit < intLimit := by
    rw [intLimit_eq]
    omega
  obtain ⟨d1, d2, d3, d4⟩ := pageCount_least pg.Total pg.Limit h3 h53 h1 hlim
  unfold IsCeilPages
  rw [h4]
  exact ⟨h3, h1, d1, d2, d3, d4⟩

/-- C14: under the contract of `sort.Slice`, for a snapshot whose maps hold fewer
than `2^53` entries (as every snapshot held in memory does), every page answered
by `GetProvinces`, `GetWards` and `GetProvinceWards` carries a total ≥ 0, a limit
between 1 and 1000 and the page count `ceil(total / limit)`: the least integer
`p` with `p * limit ≥ total`, 0 when the total is 0. The same holds for the
envelope built from any total with `0 ≤ total < 2^53` and any Go int
limit ≥ 1. -/
theorem pageCount_is_ceiling (L : StdLib) (hL : L.SortContract) (W : Web)
    (ds : DataService)
    (hsizeP : (ds.provinces.length : Int) < 9007199254740992)
    (hsizeW : (ds.wards.length : Int) < 9007199254740992) :
    (∀ (searchP typeP limitP offsetP : String) (data : List Province) (pg : Pagination),
      APIHandler.GetProvinces L W ds searchP typeP limitP offsetP = some (.page data pg) →
      pg.Limit ≤ 1000 ∧ IsCeilPages pg) ∧
    (∀ (searchP typeP limitP offsetP provinceCodeP : String) (data : List Ward)
        (pg : Pagination),
      APIHandler.GetWards L W ds searchP typeP limitP offsetP provinceCodeP
        = some (.page data pg) →
      pg.Limit ≤ 1000 ∧ IsCeilPages pg) ∧
    (∀ (provinceCode searchP typeP limitP offsetP : String) (data : List Ward)
        (pg : Pagination),
      APIHandler.GetProvinceWards L W ds provinceCode searchP typeP limitP offsetP
        = some (.page data pg) →
      pg.Limit ≤ 1000 ∧ IsCeilPages pg) ∧
    (∀ total limit offset : Int, 0 ≤ total → total < 9007199254740992 → 1 ≤ limit →
      limit < intLimit → IsCeilPages (paginationOf total limit offset)) := by
  refine ⟨?_, ?_, ?_, ?_⟩
  · intro searchP typeP limitP offsetP data pg h
    obtain ⟨p1, p2, p3, p4, search, typeFilter, p5⟩ :=
      getProvinces_page L W ds searchP typeP limitP offsetP data pg h
    have hle := matchedProvinces_length_le L hL ds search typeFilter
    exact ⟨p2, isCeilPages_of_pageCount pg p1 p2 p3 (by omega) p4⟩
  · intro searchP typeP limitP offsetP provinceCodeP data pg h
    obtain ⟨p1, p2, p3, p4, search, typeFilter, provinceCode, p5⟩ :=
      getWards_page L W ds searchP typeP limitP offsetP provinceCodeP data pg h
    have hle := matchedWards_length_le L hL ds search typeFilter provinceCode
    exact ⟨p2, isCeilPages_of_pageCount pg p1 p2 p3 (by omega) p4⟩
  · intro provinceCode searchP typeP limitP offsetP data pg h
    obtain ⟨p1, p2, p3, p4, search, typeFilter, pc, p5⟩ :=
      getProvinceWards_page L W ds provinceCode searchP typeP limitP offsetP data pg h
    have hle := matchedWards_length_le L hL ds search typeFilter pc
    exact ⟨p2, isCeilPages_of_pageCount pg p1 p2 p3 (by omega) p4⟩
  · intro total limit offset ht ht53 hl hl2
    obtain ⟨d1, d2, d3, d4⟩ := pageCount_least total limit ht ht53 hl hl2
    unfold IsCeilPages
    simp only [paginationOf]
    exact ⟨ht, hl, d1, d2, d3, d4⟩

/-- C14, at the sample snapshot of two provinces and two wards: `GetProvinces`
with limit 1 answers the first province with total 2 and 2 pages, and
`GetWards` with the default limit 50 answers both wards with 1 page. -/
theorem pageCount_is_ceiling_witness :
    smallLib.SortContract ∧
    (twoStore.provinces.length : Int) < 9007199254740992 ∧
    (twoStore.wards.length : Int) < 9007199254740992 ∧
    APIHandler.GetProvinces smallLib asciiWeb twoStore "" "" "1" "0"
      = some (.page [anGiang] { Total := 2, Limit := 1, Offset := 0, Pages := 2 }) ∧
    APIHandler.GetWards smallLib asciiWeb twoStore "" "" "" "" ""
      = some (.page [tanThanhA, tanThanhB]
          { Total := 2, Limit := 50, Offset := 0, Pages := 1 }) ∧
    IsCeilPages { Total := 2, Limit := 1, Offset := 0, Pages := 2 } :=
  ⟨smallLib_sortContract, by decide, by decide, by decide, by decide,
    ((pageCount_is_ceiling smallLib smallLib_sortContract asciiWeb twoStore
      (by decide) (by decide)).1 "" "" "1" "0" [anGiang]
      { Total := 2, Limit := 1, Offset := 0, Pages := 2 } (by decide)).2⟩

/-! ## Minimum query length (C15) -/

/-- C15 fails on the code: for the query "á", one character of two bytes, with
data loaded, the handler does not answer 400; it calls `GlobalSearch` and
answers 200 with the matches. A query of one ASCII character is rejected. -/
theorem globalSearch_handler_accepts_one_character :
    ("á").length = 1 ∧ byteLen "á" = 2 ∧ sampleStore.IsDataLoaded = true ∧
    APIHandler.GlobalSearch smallLib asciiWeb sampleStore "á" "" ""
      = some { status := 200, success := true, message := "",
               data := some { Provinces := [], Wards := [phucXa] }, query := "á" } ∧
    APIHandler.GlobalSearch smallLib asciiWeb sampleStore " a " "" ""
      = some { status := 400, success := false,
               message := "Search query must be at least 2 characters", data := none,
               query := "" } := by
  refine ⟨by decide, by decide, by decide, by decide, by decide⟩

/-- The handler rejects, with 400 and without calling the service, every query
whose trimmed text has fewer than two bytes, when data is loaded; the service
itself returns for a query of any length when the limit is not negative. -/
theorem globalSearch_handler_rejects_short_bytes (L : StdLib) (W : Web) (ds : DataService)
    (qP entityP limitP : String) (hload : ds.IsDataLoaded = true)
    (hshort : byteLen (W.TrimSpace qP) < 2) :
    APIHandler.GlobalSearch L W ds qP entityP limitP
      = some { status := 400, success := false,
               message := "Search query must be at least 2 characters", data := none,
               query := "" } := by
  unfold APIHandler.GlobalSearch
  simp only [hload, Bool.not_true, Bool.false_eq_true, if_false, hshort, if_true]

/-! ## Loading empty objects (C20) -/

/-- C20: when both files are read and both parse, without error, to maps without
entries, as the text `{}` does, `LoadData` returns no error, replaces the
provinces and wards maps, whatever they held, with empty ones, and
`IsDataLoaded()` is false afterwards. -/
theorem loadData_empty_maps_not_loaded (H : Host) (ds : DataService)
    (provinceData wardData : Bytes)
    (hrp : H.ReadFile (H.Join ds.dataPath "province.json") = (provinceData, none))
    (hpp : H.jsonUnmarshalProvinces provinceData = ([], none))
    (hrw : H.ReadFile (H.Join ds.dataPath "ward.json") = (wardData, none))
    (hpw : H.jsonUnmarshalWards wardData = ([], none)) :
    ds.LoadData H
      = (none, { provinces := [], wards := [], loadTime := H.Now, dataPath := ds.dataPath }) ∧
    (ds.LoadData H).2.provinces = [] ∧ (ds.LoadData H).2.wards = [] ∧
    (ds.LoadData H).2.IsDataLoaded = false := by
  have h : ds.LoadData H
      = (none, { provinces := [], wards := [], loadTime := H.Now,
                 dataPath := ds.dataPath }) := by
    unfold DataService.LoadData UnmarshalProvinceData UnmarshalWardData
    simp only [hrp, hpp, hrw, hpw]
  refine ⟨h, ?_, ?_, ?_⟩
  · rw [h]
  · rw [h]
  · rw [h]
    rfl

/-- C20, at the loaded sample snapshot and a host whose two files hold `{}`: the
store is loaded before, `LoadData` returns no error, and the store holds two
empty maps and is not loaded afterwards. -/
theorem loadData_empty_maps_not_loaded_witness :
    sampleStore.IsDataLoaded = true ∧
    sampleStore.LoadData emptyObjectHost
      = (none, { provinces := [], wards := [], loadTime := 1700000000, dataPath := "data" }) ∧
    (sampleStore.LoadData emptyObjectHost).2.IsDataLoaded = false :=
  ⟨by decide, by decide,
    (loadData_empty_maps_not_loaded emptyObjectHost sampleStore [123, 125] [123, 125]
      (by decide) (by decide) (by decide) (by decide)).2.2.2⟩

end VietnamAdmin
